import Mathlib

/-!
Shallow embedding of the `collision_sounds` timeline collision detector
(`src/collision_sounds/detection.py`, with the configuration surface of
`properties.py` and the result-storing loop of `operators.py`).

Modelling conventions:
* `mathutils.Vector` becomes `V3`, a triple of exact rationals; float
  arithmetic is idealised over `ℚ`.
* The external evaluator (Blender's depsgraph) is modelled at its
  interface: an object exposes its evaluated world-space location
  (`matrix_world.translation`) and its evaluated world-space mesh as
  functions of a (possibly fractional) frame time.  `scene.frame_set(f,
  subframe=s)` followed by an evaluation is modelled as evaluating those
  functions at the rational time `f + s`.
* `mathutils.bvhtree.BVHTree` is modelled at its interface as the list of
  world-space surface sample points it indexes; `find_nearest` returns the
  nearest indexed point (`none` for an empty tree).
* The comparison `(a - b).length <= threshold` is encoded without square
  roots as `0 ≤ threshold ∧ |a - b|² ≤ threshold²`, which is equivalent
  over the reals since a Euclidean length is nonnegative.
* `Vector.length` as a stored *value* (the `speed` field) has no exact
  rational counterpart, so the scan is parametrised by an arbitrary
  function `vlen : V3 → ℚ` standing for the host's float length; no claim
  below depends on its values.
* Python's `round(x, p)` becomes `rndDec p`, round-half-to-even on exact
  rationals; Python's `int(x)` becomes `truncInt` (truncation toward zero).
* The ambient scene time at which `_collision_threshold` reads the
  rigid-body margins (the frame current when `detect_collisions` is
  entered) is made explicit as a parameter `t0`, and an object's
  rigid-body margin is allowed to be time-dependent, so that "the
  threshold is computed once before the scan and never recomputed from
  possibly-deforming margins mid-scan" is a statable property.
-/

namespace CollisionSounds

/-- A 3-vector of exact rationals (the idealised `mathutils.Vector`). -/
structure V3 where
  x : ℚ
  y : ℚ
  z : ℚ
deriving DecidableEq

def V3.zero : V3 := ⟨0, 0, 0⟩

instance : Inhabited V3 := ⟨V3.zero⟩

/-- Componentwise vector subtraction. -/
def V3.sub (a b : V3) : V3 := ⟨a.x - b.x, a.y - b.y, a.z - b.z⟩

/-- Scalar multiple of a vector. -/
def V3.smul (q : ℚ) (a : V3) : V3 := ⟨q * a.x, q * a.y, q * a.z⟩

/-- Squared Euclidean norm. -/
def V3.normSq (a : V3) : ℚ := a.x ^ 2 + a.y ^ 2 + a.z ^ 2

/-- Squared Euclidean distance between two points. -/
def distSq (p q : V3) : ℚ := V3.normSq (V3.sub p q)

/-- Round a rational to the nearest integer, ties to even (Python's
`round` on an exact value). -/
def rndInt (q : ℚ) : ℤ :=
  if q - ⌊q⌋ < 1 / 2 then ⌊q⌋
  else if 1 / 2 < q - ⌊q⌋ then ⌊q⌋ + 1
  else if ⌊q⌋ % 2 = 0 then ⌊q⌋ else ⌊q⌋ + 1

/-- Python's `round(x, p)`: round to `p` decimal places, ties to even. -/
def rndDec (p : ℕ) (q : ℚ) : ℚ := (rndInt (q * 10 ^ p) : ℚ) / 10 ^ p

/-- Python's `int(x)`: truncation toward zero. -/
def truncInt (q : ℚ) : ℤ := if 0 ≤ q then ⌊q⌋ else -⌊-q⌋

/-- `_round_vec`: round each component to 4 decimal places, returning a
plain list (the Python source returns a list comprehension). -/
def round_vec (v : V3) : List ℚ := [rndDec 4 v.x, rndDec 4 v.y, rndDec 4 v.z]

/-- A Blender object as the detector observes it through the evaluated
depsgraph: its name, its `type` tag, its (optional, possibly
time-dependent) rigid-body collision margin, its evaluated world-space
location and its evaluated world-space mesh sample points at any rational
frame time.  An empty mesh list models "no renderable surface at that
instant". -/
structure Obj where
  name : String
  type : String
  rigid_body : Option (ℚ → ℚ)
  posAt : ℚ → V3
  meshAt : ℚ → List V3

instance : Inhabited Obj := ⟨⟨"", "", none, fun _ => V3.zero, fun _ => []⟩⟩

/-- The scene fields consumed by the detector. -/
structure Scene where
  frame_start : ℤ
  frame_end : ℤ
  fps_num : ℚ
  fps_base : ℚ

/-- `CollisionSoundsSettings` from `properties.py` (the `events`
collection, written only by the operator, is omitted). -/
structure CollisionSoundsSettings where
  targets_collection : List Obj
  colliders_collection : List Obj
  precision_mode : Bool
  substeps : ℕ
  export_json : Bool
  output_path : String

/-- The `substeps` property is declared with `min=2, max=64`. -/
def substepsValid (n : ℕ) : Prop := 2 ≤ n ∧ n ≤ 64

def COLLISION_EPSILON : ℚ := 1 / 100

def DEFAULT_MARGIN : ℚ := 4 / 100

/-- `BVHTree.find_nearest` modelled on a point proxy: the indexed point
nearest to the query (first of equals), `none` for an empty proxy. -/
def findNearest (bvh : List V3) (q : V3) : Option V3 :=
  bvh.foldl
    (fun acc p =>
      match acc with
      | none => some p
      | some b => if distSq q p < distSq q b then some p else some b)
    none

/-- `_bvh_from_object`: the world-space proxy of an object at time `t`,
`none` when the evaluated mesh has no polygons. -/
def bvh_from_object (o : Obj) (t : ℚ) : Option (List V3) :=
  let m := o.meshAt t
  if m = [] then none else some m

/-- `_collision_threshold`, with the ambient scene time `t0` at which the
rigid-body margins are read made explicit. -/
def collision_threshold (t0 : ℚ) (obj_a obj_b : Obj) : ℚ :=
  (match obj_a.rigid_body with
    | some m => m t0
    | none => DEFAULT_MARGIN) +
  (match obj_b.rigid_body with
    | some m => m t0
    | none => DEFAULT_MARGIN) +
  COLLISION_EPSILON

/-- `_surfaces_within_distance`: two-bounce nearest-point gap test.  The
float comparison `(loc_on_a - loc_on_b).length <= threshold` is encoded
exactly as `0 ≤ threshold ∧ gap² ≤ threshold²`.  `pos_b` is accepted and
unused, exactly as in the source. -/
def surfaces_within_distance (bvh_a bvh_b : List V3) (pos_a _pos_b : V3)
    (threshold : ℚ) : Bool :=
  match findNearest bvh_b pos_a with
  | none => false
  | some loc_on_b =>
    match findNearest bvh_a loc_on_b with
    | none => false
    | some loc_on_a =>
      decide (0 ≤ threshold ∧ distSq loc_on_a loc_on_b ≤ threshold * threshold)

/-- `_contact_position`: nearest point on the passive surface to the
active object's position, falling back to that position. -/
def contact_position (passive_bvh : Option (List V3))
    (active_world_pos : V3) : V3 :=
  match passive_bvh with
  | none => active_world_pos
  | some bvh =>
    match findNearest bvh active_world_pos with
    | some location => location
    | none => active_world_pos

/-- Objects of a collection with `obj.type == 'MESH'`. -/
def meshObjects (objs : List Obj) : List Obj :=
  objs.filter (fun o => o.type == "MESH")

/-- `itertools.product(targets, colliders)` as an ordered pair list. -/
def pairsOf (targets colliders : List Obj) : List (Obj × Obj) :=
  targets.flatMap (fun t => colliders.map (fun c => (t, c)))

/-- The `all_objects` dictionary: targets inserted first, then colliders,
later insertions winning.  Modelled as a total function; a name outside
the dictionary yields the default object (the scan never consults one). -/
def all_objects_map (targets colliders : List Obj) : String → Obj :=
  fun n => ((targets ++ colliders).reverse.find? (fun o => o.name == n)).getD default

/-- The `pair_thresholds` dictionary, keyed by name pairs, built once
before the scan from the margins read at the ambient time `t0` (later
same-key insertions win, as for a Python dict). -/
def pair_thresholds_map (t0 : ℚ) (pairs : List (Obj × Obj)) :
    String × String → ℚ :=
  fun k =>
    ((pairs.reverse.find? (fun p => (p.1.name, p.2.name) == k)).map
      (fun p => collision_threshold t0 p.1 p.2)).getD 0

/-- One collision event record, mirroring the dict built by the source
(field values; the dict view lives in `Event.toDict`). -/
structure Event where
  frame : ℚ
  time : ℚ
  target : String
  collider : String
  position : List ℚ
  velocity : List ℚ
  relative_velocity : List ℚ
  speed : ℚ
deriving DecidableEq

/-- State threaded through the pass-1 frame loop. -/
structure ScanSt where
  collision_events : List Event
  was_in_contact : String × String → Bool
  prev_positions : Option (String → V3)

/-- The event dict appended on a rising edge, as a function of the cached
per-frame samples and the pair's name key. -/
def mk_event (vlen : V3 → ℚ) (fps : ℚ) (frame : ℤ)
    (curPos curVel : String → V3) (bvh_c : List V3)
    (key : String × String) : Event :=
  let pos_t := curPos key.1
  let contact := contact_position (some bvh_c) pos_t
  let vel_t := curVel key.1
  let vel_c := curVel key.2
  let rel_vel := V3.sub vel_t vel_c
  { frame := (frame : ℚ)
    time := rndDec 6 ((frame : ℚ) / fps)
    target := key.1
    collider := key.2
    position := round_vec contact
    velocity := round_vec vel_t
    relative_velocity := round_vec rel_vel
    speed := rndDec 4 (vlen rel_vel) }

/-- The body of the pass-1 `for target, collider in pairs` loop: skip the
pair when either cached proxy is missing, emit an event on a rising edge,
and record the fresh contact result under the pair's name key. -/
def pair_step (vlen : V3 → ℚ) (fps : ℚ) (frame : ℤ)
    (curPos curVel : String → V3) (bvhc : String → Option (List V3))
    (thr : String × String → ℚ)
    (acc : List Event × (String × String → Bool)) (pr : Obj × Obj) :
    List Event × (String × String → Bool) :=
  match bvhc pr.1.name, bvhc pr.2.name with
  | some bvh_t, some bvh_c =>
    let key := (pr.1.name, pr.2.name)
    let is_in_contact := surfaces_within_distance bvh_t bvh_c
      (curPos pr.1.name) (curPos pr.2.name) (thr key)
    ((if is_in_contact && !acc.2 key then
        acc.1 ++ [mk_event vlen fps frame curPos curVel bvh_c key]
      else acc.1),
     fun k => if k = key then is_in_contact else acc.2 k)
  | _, _ => acc

/-- The body of the pass-1 `for frame in range(...)` loop: sample every
object at the integer frame, build the proxy cache, then fold the pair
loop. -/
def scan_frame (vlen : V3 → ℚ) (fps : ℚ) (allObjs : String → Obj)
    (pairs : List (Obj × Obj)) (thr : String × String → ℚ)
    (st : ScanSt) (frame : ℤ) : ScanSt :=
  let cur_positions : String → V3 := fun n => (allObjs n).posAt (frame : ℚ)
  let cur_velocities : String → V3 := fun n =>
    match st.prev_positions with
    | some prev => V3.smul fps (V3.sub (cur_positions n) (prev n))
    | none => V3.zero
  let bvh_cache : String → Option (List V3) := fun n =>
    bvh_from_object (allObjs n) (frame : ℚ)
  let res := pairs.foldl
    (pair_step vlen fps frame cur_positions cur_velocities bvh_cache thr)
    (st.collision_events, st.was_in_contact)
  { collision_events := res.1
    was_in_contact := res.2
    prev_positions := some cur_positions }

/-- The contact-test result the scanner observes for a name key at integer
frame `f`: `none` when either proxy is missing (the pair is skipped). -/
def inContactAt (allObjs : String → Obj) (thr : String × String → ℚ)
    (key : String × String) (f : ℤ) : Option Bool :=
  match bvh_from_object (allObjs key.1) (f : ℚ),
        bvh_from_object (allObjs key.2) (f : ℚ) with
  | some bvh_t, some bvh_c =>
    some (surfaces_within_distance bvh_t bvh_c
      ((allObjs key.1).posAt (f : ℚ)) ((allObjs key.2).posAt (f : ℚ)) (thr key))
  | _, _ => none

/-- The pair's overlap state after the scanner has processed a frame list:
each frame whose contact test ran overwrites the state, a skipped frame
leaves it unchanged, and the state starts as "not touching". -/
def wasAfter (allObjs : String → Obj) (thr : String × String → ℚ)
    (key : String × String) (fs : List ℤ) : Bool :=
  fs.foldl (fun b f => (inContactAt allObjs thr key f).getD b) false

/-- `range(frame_start, frame_end + 1)` as a list of integers. -/
def frameRange (frame_start frame_end : ℤ) : List ℤ :=
  (List.range (frame_end + 1 - frame_start).toNat).map
    (fun i : ℕ => frame_start + (i : ℤ))

/-- Pass 1: the sequential frame scan. -/
def pass1 (vlen : V3 → ℚ) (fps : ℚ) (allObjs : String → Obj)
    (pairs : List (Obj × Obj)) (thr : String × String → ℚ)
    (frames : List ℤ) : ScanSt :=
  frames.foldl (scan_frame vlen fps allObjs pairs thr)
    { collision_events := []
      was_in_contact := fun _ => false
      prev_positions := none }

/-- The number of bisection iterations: `max(1, ceil(log2(substeps)))`. -/
def bisect_iterations (substeps : ℕ) : ℕ := max 1 (Nat.clog 2 substeps)

/-- The contact probe `_bisect_onset` evaluates at a single time `t`:
missing geometry on either side counts as "not in contact". -/
def bisect_probe (obj_a obj_b : Obj) (threshold : ℚ) (t : ℚ) : Bool :=
  match bvh_from_object obj_a t, bvh_from_object obj_b t with
  | some bvh_a, some bvh_b =>
    surfaces_within_distance bvh_a bvh_b (obj_a.posAt t) (obj_b.posAt t) threshold
  | _, _ => false

/-- The bisection loop of `_bisect_onset`, returning the final `hi`. -/
def bisect_loop (probe : ℚ → Bool) : ℕ → ℚ → ℚ → ℚ
  | 0, _lo, hi => hi
  | n + 1, lo, hi =>
    let mid := (lo + hi) / 2
    if probe mid then bisect_loop probe n lo mid
    else bisect_loop probe n mid hi

/-- `_bisect_onset`: binary-search `[frame_lo, frame_hi]` for the earliest
in-contact moment, returning the final `hi` rounded to 4 decimals. -/
def bisect_onset (obj_a obj_b : Obj) (frame_lo frame_hi : ℤ)
    (substeps : ℕ) (threshold : ℚ) : ℚ :=
  rndDec 4 (bisect_loop (bisect_probe obj_a obj_b threshold)
    (bisect_iterations substeps) (frame_lo : ℚ) (frame_hi : ℚ))

/-- `mathutils.Vector` applied to a stored 3-component list. -/
def v3OfList : List ℚ → V3
  | [a, b, c] => ⟨a, b, c⟩
  | _ => V3.zero

/-- The sub-frame onset time `_refine_events` computes for one coarse
event: the bisection result when the coarse frame lies strictly after the
scan's first frame, the coarse frame itself otherwise. -/
def refine_precise (frame_start : ℤ) (allObjs : String → Obj)
    (thr : String × String → ℚ) (substeps : ℕ) (ev : Event) : ℚ :=
  let frame : ℤ := truncInt ev.frame
  let target := allObjs ev.target
  let collider := allObjs ev.collider
  let threshold := thr (target.name, collider.name)
  if frame_start < frame then
    bisect_onset target collider (frame - 1) frame substeps threshold
  else (frame : ℚ)

/-- The body of the `_refine_events` loop for one coarse event. -/
def refine_event (vlen : V3 → ℚ) (frame_start : ℤ) (allObjs : String → Obj)
    (thr : String × String → ℚ) (substeps : ℕ) (fps : ℚ)
    (ev : Event) : Event :=
  let target := allObjs ev.target
  let collider := allObjs ev.collider
  let precise_frame : ℚ := refine_precise frame_start allObjs thr substeps ev
  let pos_t := target.posAt precise_frame
  let pos_c := collider.posAt precise_frame
  let bvh_c := bvh_from_object collider precise_frame
  let contact :=
    match bvh_c with
    | some b => contact_position (some b) pos_t
    | none => pos_t
  let half_step : ℚ := (1 / 2) / (substeps : ℚ)
  let prev_t := max (precise_frame - half_step) ((frame_start : ℤ) : ℚ)
  let prev_pos_t := target.posAt prev_t
  let prev_pos_c := collider.posAt prev_t
  let dt := (precise_frame - prev_t) / fps
  let vel_t :=
    if 0 < dt then V3.smul dt⁻¹ (V3.sub pos_t prev_pos_t)
    else v3OfList ev.velocity
  let vel_c :=
    if 0 < dt then V3.smul dt⁻¹ (V3.sub pos_c prev_pos_c)
    else V3.zero
  let rel_vel := V3.sub vel_t vel_c
  { frame := rndDec 4 precise_frame
    time := rndDec 6 (precise_frame / fps)
    target := target.name
    collider := collider.name
    position := round_vec contact
    velocity := round_vec vel_t
    relative_velocity := round_vec rel_vel
    speed := rndDec 4 (vlen rel_vel) }

/-- `_refine_events`: one refined event per coarse event, in order. -/
def refine_events (vlen : V3 → ℚ) (frame_start : ℤ) (allObjs : String → Obj)
    (thr : String × String → ℚ) (substeps : ℕ) (fps : ℚ)
    (events : List Event) : List Event :=
  events.map (refine_event vlen frame_start allObjs thr substeps fps)

/-- `detect_collisions(context)`.  `t0` is the ambient scene time at which
the pre-scan threshold dictionary reads the rigid-body margins. -/
def detect_collisions (vlen : V3 → ℚ) (t0 : ℚ) (scene : Scene)
    (settings : CollisionSoundsSettings) : List Event :=
  let fps := scene.fps_num / scene.fps_base
  let precision := settings.precision_mode
  let substeps := if precision then settings.substeps else 1
  let targets := meshObjects settings.targets_collection
  let colliders := meshObjects settings.colliders_collection
  let pairs := pairsOf targets colliders
  let allObjs := all_objects_map targets colliders
  let thr := pair_thresholds_map t0 pairs
  let st := pass1 vlen fps allObjs pairs thr
    (frameRange scene.frame_start scene.frame_end)
  if precision && !st.collision_events.isEmpty then
    refine_events vlen scene.frame_start allObjs thr substeps fps
      st.collision_events
  else st.collision_events

/-!  Named projections of the values `detect_collisions` computes before
its frame loop, for stating per-pass properties. -/

/-- `fps = scene.render.fps / scene.render.fps_base`. -/
def scanFps (scene : Scene) : ℚ := scene.fps_num / scene.fps_base

/-- The mesh-filtered target list. -/
def scanTargets (settings : CollisionSoundsSettings) : List Obj :=
  meshObjects settings.targets_collection

/-- The mesh-filtered collider list. -/
def scanColliders (settings : CollisionSoundsSettings) : List Obj :=
  meshObjects settings.colliders_collection

/-- The scanned (target, collider) pair list. -/
def scanPairs (settings : CollisionSoundsSettings) : List (Obj × Obj) :=
  pairsOf (scanTargets settings) (scanColliders settings)

/-- The scan's `all_objects` dictionary. -/
def scanObjs (settings : CollisionSoundsSettings) : String → Obj :=
  all_objects_map (scanTargets settings) (scanColliders settings)

/-- The scan's pre-computed `pair_thresholds` dictionary. -/
def scanThr (t0 : ℚ) (settings : CollisionSoundsSettings) :
    String × String → ℚ :=
  pair_thresholds_map t0 (scanPairs settings)

/-- The coarse (pass-1) event list of a scan. -/
def coarseEvents (vlen : V3 → ℚ) (t0 : ℚ) (scene : Scene)
    (settings : CollisionSoundsSettings) : List Event :=
  (pass1 vlen (scanFps scene) (scanObjs settings) (scanPairs settings)
    (scanThr t0 settings)
    (frameRange scene.frame_start scene.frame_end)).collision_events

/-!  Sampling traces: the ordered sequence of times handed to
`scene.frame_set` (with `frame_set(f, subframe=s)` recorded as the
rational `f + s`), mirroring the call sites of the source. -/

/-- Times sampled by the pass-1 loop, one `frame_set` per iteration. -/
def pass1_trace (frames : List ℤ) : List ℚ :=
  frames.foldl (fun (acc : List ℚ) (f : ℤ) => acc ++ [(f : ℚ)]) []

/-- Times sampled by the bisection loop (one `frame_set` per iteration). -/
def bisect_loop_trace (probe : ℚ → Bool) : ℕ → ℚ → ℚ → List ℚ
  | 0, _lo, _hi => []
  | n + 1, lo, hi =>
    let mid := (lo + hi) / 2
    mid :: (if probe mid then bisect_loop_trace probe n lo mid
            else bisect_loop_trace probe n mid hi)

/-- Times sampled while refining one event: the bisection's samples, then
the refined instant, then the backward finite-difference instant. -/
def refine_event_trace (frame_start : ℤ) (allObjs : String → Obj)
    (thr : String × String → ℚ) (substeps : ℕ) (ev : Event) : List ℚ :=
  let frame : ℤ := truncInt ev.frame
  let target := allObjs ev.target
  let collider := allObjs ev.collider
  let threshold := thr (target.name, collider.name)
  let bis :=
    if frame_start < frame then
      bisect_loop_trace (bisect_probe target collider threshold)
        (bisect_iterations substeps) ((frame - 1 : ℤ) : ℚ) ((frame : ℤ) : ℚ)
    else []
  let precise_frame : ℚ := refine_precise frame_start allObjs thr substeps ev
  let half_step : ℚ := (1 / 2) / (substeps : ℚ)
  let prev_t := max (precise_frame - half_step) ((frame_start : ℤ) : ℚ)
  bis ++ [precise_frame, prev_t]

/-- Times sampled by `_refine_events` over a coarse event list. -/
def refine_trace (frame_start : ℤ) (allObjs : String → Obj)
    (thr : String × String → ℚ) (substeps : ℕ) (events : List Event) : List ℚ :=
  events.foldl
    (fun acc ev => acc ++ refine_event_trace frame_start allObjs thr substeps ev) []

/-- The full sampling trace of `detect_collisions`. -/
def detect_trace (vlen : V3 → ℚ) (t0 : ℚ) (scene : Scene)
    (settings : CollisionSoundsSettings) : List ℚ :=
  let fps := scene.fps_num / scene.fps_base
  let precision := settings.precision_mode
  let substeps := if precision then settings.substeps else 1
  let targets := meshObjects settings.targets_collection
  let colliders := meshObjects settings.colliders_collection
  let pairs := pairsOf targets colliders
  let allObjs := all_objects_map targets colliders
  let thr := pair_thresholds_map t0 pairs
  let frames := frameRange scene.frame_start scene.frame_end
  let st := pass1 vlen fps allObjs pairs thr frames
  pass1_trace frames ++
    (if precision && !st.collision_events.isEmpty then
      refine_trace scene.frame_start allObjs thr substeps st.collision_events
    else [])

/-!  The two contact-test policies named by the specification.  The source
exposes no policy selector; the `OVERLAP` arm is modelled from the spec to
make the comparison statable. -/

/-- The two contact-test policies of the specification's configuration
surface (`contactPolicy: {OVERLAP, SURFACE_DISTANCE}`). -/
inductive ContactPolicy
  | OVERLAP
  | SURFACE_DISTANCE
deriving DecidableEq

/-- Modelled from the spec: `proxyA.overlap(proxyB)`, the set of element
pairs whose epsilon-inflated bounding volumes intersect, on point proxies
inflated by `COLLISION_EPSILON`. -/
def bvhOverlapPairs (bvh_a bvh_b : List V3) (eps : ℚ) : List (V3 × V3) :=
  (bvh_a.flatMap (fun p => bvh_b.map (fun q => (p, q)))).filter
    (fun pq => decide (distSq pq.1 pq.2 ≤ (2 * eps) ^ 2))

/-- Modelled from the spec: the contact test under a selected policy.
`OVERLAP` holds iff the overlap set is non-empty; `SURFACE_DISTANCE` is
the source's `_surfaces_within_distance`. -/
def specInContact (policy : ContactPolicy) (bvh_a bvh_b : List V3)
    (pos_a pos_b : V3) (threshold : ℚ) : Bool :=
  match policy with
  | .OVERLAP => !(bvhOverlapPairs bvh_a bvh_b COLLISION_EPSILON).isEmpty
  | .SURFACE_DISTANCE => surfaces_within_distance bvh_a bvh_b pos_a pos_b threshold

/-- The pair-loop body with the contact test selected by an explicit
policy (identical to `pair_step` except for the selectable predicate). -/
def pair_step_with_policy (policy : ContactPolicy) (vlen : V3 → ℚ) (fps : ℚ)
    (frame : ℤ) (curPos curVel : String → V3)
    (bvhc : String → Option (List V3)) (thr : String × String → ℚ)
    (acc : List Event × (String × String → Bool)) (pr : Obj × Obj) :
    List Event × (String × String → Bool) :=
  match bvhc pr.1.name, bvhc pr.2.name with
  | some bvh_t, some bvh_c =>
    let key := (pr.1.name, pr.2.name)
    let is_in_contact := specInContact policy bvh_t bvh_c
      (curPos pr.1.name) (curPos pr.2.name) (thr key)
    ((if is_in_contact && !acc.2 key then
        acc.1 ++ [mk_event vlen fps frame curPos curVel bvh_c key]
      else acc.1),
     fun k => if k = key then is_in_contact else acc.2 k)
  | _, _ => acc

/-- The scan with the contact test selected by an explicit policy
(identical to `scan_frame` except for the selectable predicate). -/
def scan_frame_with_policy (policy : ContactPolicy) (vlen : V3 → ℚ) (fps : ℚ)
    (allObjs : String → Obj) (pairs : List (Obj × Obj))
    (thr : String × String → ℚ) (st : ScanSt) (frame : ℤ) : ScanSt :=
  let cur_positions : String → V3 := fun n => (allObjs n).posAt (frame : ℚ)
  let cur_velocities : String → V3 := fun n =>
    match st.prev_positions with
    | some prev => V3.smul fps (V3.sub (cur_positions n) (prev n))
    | none => V3.zero
  let bvh_cache : String → Option (List V3) := fun n =>
    bvh_from_object (allObjs n) (frame : ℚ)
  let res := pairs.foldl
    (pair_step_with_policy policy vlen fps frame cur_positions cur_velocities
      bvh_cache thr)
    (st.collision_events, st.was_in_contact)
  { collision_events := res.1
    was_in_contact := res.2
    prev_positions := some cur_positions }

/-- `detect_collisions` under an explicit contact policy (the refinement
probe likewise switched).  Used only to compare against the source. -/
def detect_with_policy (policy : ContactPolicy) (vlen : V3 → ℚ) (t0 : ℚ)
    (scene : Scene) (settings : CollisionSoundsSettings) : List Event :=
  let fps := scene.fps_num / scene.fps_base
  let precision := settings.precision_mode
  let substeps := if precision then settings.substeps else 1
  let targets := meshObjects settings.targets_collection
  let colliders := meshObjects settings.colliders_collection
  let pairs := pairsOf targets colliders
  let allObjs := all_objects_map targets colliders
  let thr := pair_thresholds_map t0 pairs
  let st := (frameRange scene.frame_start scene.frame_end).foldl
    (scan_frame_with_policy policy vlen fps allObjs pairs thr)
    { collision_events := []
      was_in_contact := fun _ => false
      prev_positions := none }
  if precision && !st.collision_events.isEmpty then
    refine_events vlen scene.frame_start allObjs thr substeps fps
      st.collision_events
  else st.collision_events

/-!  The dict view of an event and the operator's result-storing loop. -/

/-- A Python value stored in an event dict. -/
inductive PyVal
  | num (q : ℚ)
  | str (s : String)
  | vec (l : List ℚ)
deriving DecidableEq

/-- The literal dict built for each event by both passes, keys in source
order. -/
def Event.toDict (ev : Event) : List (String × PyVal) :=
  [("frame", .num ev.frame), ("time", .num ev.time),
   ("target", .str ev.target), ("collider", .str ev.collider),
   ("position", .vec ev.position), ("velocity", .vec ev.velocity),
   ("relative_velocity", .vec ev.relative_velocity), ("speed", .num ev.speed)]

/-- Python dict subscription, as an optional lookup. -/
def dictGet (d : List (String × PyVal)) (k : String) : Option PyVal :=
  (d.find? (fun p => p.1 == k)).map (fun p => p.2)

/-- One event dict subscription inside the operator's loop: a missing key
raises `KeyError`. -/
def subscript (d : List (String × PyVal)) (k : String) : Except String PyVal :=
  match dictGet d k with
  | some v => Except.ok v
  | none => Except.error ("KeyError: " ++ k)

/-- The field-copy sequence of `COLLISION_OT_detect.execute` for one
event dict, subscripting the keys in source order. -/
def store_event (d : List (String × PyVal)) : Except String Unit := do
  let _ ← subscript d "frame"
  let _ ← subscript d "time"
  let _ ← subscript d "active"
  let _ ← subscript d "passive"
  let _ ← subscript d "position"
  let _ ← subscript d "velocity"
  let _ ← subscript d "relative_velocity"
  let _ ← subscript d "speed"
  pure ()

/-- The operator's `for e in events` result-storing loop. -/
def store_events (evs : List (List (String × PyVal))) : Except String Unit :=
  match evs with
  | [] => pure ()
  | d :: rest => do
    let _ ← store_event d
    store_events rest

/-!  Lemmas about the rounding primitives. -/

theorem rndInt_intCast (z : ℤ) : rndInt (z : ℚ) = z := by
  unfold rndInt
  rw [Int.floor_intCast]
  norm_num

theorem floor_le_rndInt (q : ℚ) : ⌊q⌋ ≤ rndInt q := by
  unfold rndInt
  split_ifs <;> omega

theorem rndInt_le_floor_add_one (q : ℚ) : rndInt q ≤ ⌊q⌋ + 1 := by
  unfold rndInt
  split_ifs <;> omega

theorem rndInt_eq_floor (q : ℚ) (h : q - ⌊q⌋ < 1 / 2) : rndInt q = ⌊q⌋ := by
  unfold rndInt
  rw [if_pos h]

theorem rndInt_le_rndInt {x y : ℚ} (h : x ≤ y) : rndInt x ≤ rndInt y := by
  rcases lt_or_le ⌊x⌋ ⌊y⌋ with hf | hf
  · calc rndInt x ≤ ⌊x⌋ + 1 := rndInt_le_floor_add_one x
    _ ≤ ⌊y⌋ := by omega
    _ ≤ rndInt y := floor_le_rndInt y
  · have hfe : ⌊x⌋ = ⌊y⌋ := le_antisymm (Int.floor_mono h) hf
    unfold rndInt
    rw [hfe]
    have hr : x - (⌊y⌋ : ℚ) ≤ y - (⌊y⌋ : ℚ) := by linarith
    split_ifs <;> first
      | omega
      | linarith

theorem sub_half_le_rndInt (q : ℚ) : q - 1 / 2 ≤ (rndInt q : ℚ) := by
  have h1 : q < ⌊q⌋ + 1 := Int.lt_floor_add_one q
  unfold rndInt
  split_ifs with h2 h3 h4 <;> push_cast <;> linarith

theorem rndInt_le_add_half (q : ℚ) : (rndInt q : ℚ) ≤ q + 1 / 2 := by
  have h1 : (⌊q⌋ : ℚ) ≤ q := Int.floor_le q
  unfold rndInt
  split_ifs with h2 h3 h4 <;> push_cast <;> linarith

theorem rndDec_intCast (p : ℕ) (z : ℤ) : rndDec p (z : ℚ) = z := by
  unfold rndDec
  have h : ((z : ℚ) * 10 ^ p) = ((z * 10 ^ p : ℤ) : ℚ) := by push_cast; ring
  rw [h, rndInt_intCast]
  push_cast
  have hp : (10 : ℚ) ^ p ≠ 0 := by positivity
  field_simp

theorem rndDec_le_rndDec (p : ℕ) {x y : ℚ} (h : x ≤ y) :
    rndDec p x ≤ rndDec p y := by
  unfold rndDec
  have hp : (0 : ℚ) < 10 ^ p := by positivity
  have hm : x * 10 ^ p ≤ y * 10 ^ p :=
    mul_le_mul_of_nonneg_right h (le_of_lt hp)
  have := rndInt_le_rndInt hm
  exact (div_le_div_iff_of_pos_right hp).mpr (by exact_mod_cast this)

theorem intCast_lt_rndDec4 (z : ℤ) {q : ℚ} (h : (z : ℚ) + 1 / 64 ≤ q) :
    (z : ℚ) < rndDec 4 q := by
  have hmono := rndDec_le_rndDec 4 h
  have hval : rndDec 4 ((z : ℚ) + 1 / 64) = (z : ℚ) + 39 / 2500 := by
    unfold rndDec
    have h1 : ((z : ℚ) + 1 / 64) * 10 ^ 4 = ((z * 10 ^ 4 + 156 : ℤ) : ℚ) + 1 / 4 := by
      push_cast; ring
    rw [h1]
    have h2 : ⌊((z * 10 ^ 4 + 156 : ℤ) : ℚ) + 1 / 4⌋ = z * 10 ^ 4 + 156 := by
      rw [Int.floor_int_add]
      norm_num
    have h3 : rndInt (((z * 10 ^ 4 + 156 : ℤ) : ℚ) + 1 / 4) = z * 10 ^ 4 + 156 := by
      rw [rndInt_eq_floor _ (by rw [h2]; push_cast; norm_num), h2]
    rw [h3]
    push_cast
    ring
  rw [hval] at hmono
  have : (0 : ℚ) < 39 / 2500 := by norm_num
  linarith

/-!  Lemmas about `findNearest` and the proxies. -/

theorem foldl_nearest_some (q : V3) :
    ∀ (l : List V3) (b : V3),
      ∃ p, l.foldl
          (fun acc r =>
            match acc with
            | none => some r
            | some s => if distSq q r < distSq q s then some r else some s)
          (some b) = some p ∧
        (p = b ∨ p ∈ l) ∧ distSq q p ≤ distSq q b ∧
        ∀ r ∈ l, distSq q p ≤ distSq q r := by
  intro l
  induction l with
  | nil =>
    intro b
    exact ⟨b, rfl, Or.inl rfl, le_refl _, by simp⟩
  | cons a l ih =>
    intro b
    by_cases hlt : distSq q a < distSq q b
    · obtain ⟨p, hp, hmem, hle, hall⟩ := ih a
      refine ⟨p, ?_, ?_, ?_, ?_⟩
      · simpa [List.foldl_cons, hlt] using hp
      · rcases hmem with h | h
        · exact Or.inr (by simp [h])
        · exact Or.inr (by simp [h])
      · exact le_trans hle (le_of_lt hlt)
      · intro r hr
        rcases List.mem_cons.mp hr with h | h
        · subst h; exact le_trans hle (le_refl _)
        · exact hall r h
    · obtain ⟨p, hp, hmem, hle, hall⟩ := ih b
      refine ⟨p, ?_, ?_, hle, ?_⟩
      · simpa [List.foldl_cons, hlt] using hp
      · rcases hmem with h | h
        · exact Or.inl h
        · exact Or.inr (by simp [h])
      · intro r hr
        rcases List.mem_cons.mp hr with h | h
        · subst h; exact le_trans hle (not_lt.mp hlt)
        · exact hall r h

theorem findNearest_spec {l : List V3} {q p : V3}
    (h : findNearest l q = some p) :
    p ∈ l ∧ ∀ r ∈ l, distSq q p ≤ distSq q r := by
  cases l with
  | nil => simp [findNearest] at h
  | cons a l =>
    obtain ⟨p', hp', hmem, hle, hall⟩ := foldl_nearest_some q l a
    have hfn : findNearest (a :: l) q = some p' := by
      simpa [findNearest, List.foldl_cons] using hp'
    rw [hfn] at h
    injection h with h
    subst h
    constructor
    · rcases hmem with h | h
      · exact by simp [h]
      · exact by simp [h]
    · intro r hr
      rcases List.mem_cons.mp hr with h | h
      · subst h
        exact hle
      · exact hall r h

theorem findNearest_isSome {l : List V3} (h : l ≠ []) (q : V3) :
    ∃ p, findNearest l q = some p := by
  cases l with
  | nil => exact absurd rfl h
  | cons a l =>
    obtain ⟨p, hp, _, _, _⟩ := foldl_nearest_some q l a
    exact ⟨p, by simpa [findNearest, List.foldl_cons] using hp⟩

theorem bvh_from_object_eq_some {o : Obj} {t : ℚ} {m : List V3}
    (h : bvh_from_object o t = some m) : o.meshAt t = m ∧ m ≠ [] := by
  unfold bvh_from_object at h
  by_cases he : o.meshAt t = []
  · simp [he] at h
  · simp [he] at h
    exact ⟨h, h ▸ he⟩

theorem bvh_from_object_eq_none {o : Obj} {t : ℚ}
    (h : bvh_from_object o t = none) : o.meshAt t = [] := by
  unfold bvh_from_object at h
  by_cases he : o.meshAt t = []
  · exact he
  · simp [he] at h

/-!  Lemmas about `frameRange`. -/

theorem mem_frameRange {s e F : ℤ} : F ∈ frameRange s e ↔ s ≤ F ∧ F ≤ e := by
  unfold frameRange
  simp only [List.mem_map, List.mem_range]
  constructor
  · rintro ⟨i, hi, rfl⟩
    omega
  · rintro ⟨h1, h2⟩
    exact ⟨(F - s).toNat, by omega, by omega⟩

theorem frameRange_append {s e : ℤ} (m : ℤ) (h1 : s - 1 ≤ m) (h2 : m ≤ e) :
    frameRange s e = frameRange s m ++ frameRange (m + 1) e := by
  unfold frameRange
  have hn : (e + 1 - s).toNat = (m + 1 - s).toNat + (e - m).toNat := by omega
  have he : e + 1 - (m + 1) = e - m := by ring
  rw [hn, he, List.range_add, List.map_append, List.map_map]
  congr 1
  apply List.map_congr_left
  intro i _hi
  simp only [Function.comp_apply]
  omega

theorem frameRange_self (F : ℤ) : frameRange F F = [F] := by
  unfold frameRange
  have h1 : (F + 1 - F).toNat = 1 := by omega
  rw [h1]
  simp [List.range_succ]

theorem frameRange_pairwise_lt (s e : ℤ) :
    (frameRange s e).Pairwise (· < ·) := by
  unfold frameRange
  refine List.Pairwise.map _ ?_ (List.pairwise_lt_range _)
  intro a b hab
  omega

/-!  Lemmas about the object dictionary and the pair list. -/

theorem all_objects_map_name {targets colliders : List Obj} {n : String}
    (h : ∃ o ∈ targets ++ colliders, o.name = n) :
    (all_objects_map targets colliders n).name = n := by
  unfold all_objects_map
  have hsome : ((targets ++ colliders).reverse.find?
      (fun o => o.name == n)).isSome := by
    rw [List.find?_isSome]
    obtain ⟨o, ho, hn⟩ := h
    exact ⟨o, List.mem_reverse.mpr ho, by simp [hn]⟩
  obtain ⟨o, ho⟩ := Option.isSome_iff_exists.mp hsome
  rw [ho]
  have := List.find?_some ho
  simpa using this

theorem mem_pairsOf {targets colliders : List Obj} {pr : Obj × Obj} :
    pr ∈ pairsOf targets colliders ↔
      pr.1 ∈ targets ∧ pr.2 ∈ colliders := by
  unfold pairsOf
  constructor
  · intro h
    simp only [List.mem_flatMap, List.mem_map] at h
    obtain ⟨t, ht, c, hc, hpr⟩ := h
    rw [← hpr]
    exact ⟨ht, hc⟩
  · rintro ⟨h1, h2⟩
    simp only [List.mem_flatMap, List.mem_map]
    exact ⟨pr.1, h1, pr.2, h2, rfl⟩

/-!  Characterisation of the pass-1 pair loop. -/

/-- The name key of a pair, as used for `was_in_contact` and
`pair_thresholds`. -/
def keyOf (pr : Obj × Obj) : String × String := (pr.1.name, pr.2.name)

/-- The contact-test observation for a name key, as a function of the
per-frame caches. -/
def testOf (bvhc : String → Option (List V3)) (curPos : String → V3)
    (thr : String × String → ℚ) (k : String × String) : Option Bool :=
  match bvhc k.1, bvhc k.2 with
  | some bvh_t, some bvh_c =>
    some (surfaces_within_distance bvh_t bvh_c (curPos k.1) (curPos k.2) (thr k))
  | _, _ => none

theorem inContactAt_eq_testOf (allObjs : String → Obj)
    (thr : String × String → ℚ) (k : String × String) (f : ℤ) :
    inContactAt allObjs thr k f
      = testOf (fun n => bvh_from_object (allObjs n) (f : ℚ))
          (fun n => (allObjs n).posAt (f : ℚ)) thr k := rfl

theorem testOf_eq_some {bvhc : String → Option (List V3)}
    {curPos : String → V3} {thr : String × String → ℚ}
    {k : String × String} {b : Bool}
    (h : testOf bvhc curPos thr k = some b) :
    ∃ bvh_t bvh_c, bvhc k.1 = some bvh_t ∧ bvhc k.2 = some bvh_c ∧
      b = surfaces_within_distance bvh_t bvh_c (curPos k.1) (curPos k.2) (thr k) := by
  unfold testOf at h
  cases h1 : bvhc k.1 with
  | none => rw [h1] at h; simp at h
  | some bvh_t =>
    cases h2 : bvhc k.2 with
    | none => rw [h1, h2] at h; simp at h
    | some bvh_c =>
      rw [h1, h2] at h
      simp only [Option.some.injEq] at h
      exact ⟨bvh_t, bvh_c, rfl, rfl, h.symm⟩

theorem pair_step_eq (vlen : V3 → ℚ) (fps : ℚ) (frame : ℤ)
    (curPos curVel : String → V3) (bvhc : String → Option (List V3))
    (thr : String × String → ℚ)
    (acc : List Event × (String × String → Bool)) (pr : Obj × Obj) :
    pair_step vlen fps frame curPos curVel bvhc thr acc pr
      = match testOf bvhc curPos thr (keyOf pr) with
        | none => acc
        | some b =>
          ((if b && !acc.2 (keyOf pr) then
              acc.1 ++ [mk_event vlen fps frame curPos curVel
                ((bvhc pr.2.name).getD []) (keyOf pr)]
            else acc.1),
           fun k => if k = keyOf pr then b else acc.2 k) := by
  unfold pair_step testOf keyOf
  cases h1 : bvhc pr.1.name with
  | none => rfl
  | some bvh_t =>
    cases h2 : bvhc pr.2.name with
    | none => rfl
    | some bvh_c => simp [h2]

/-- Does an event carry this pair key? -/
def evKeyPred (k : String × String) : Event → Bool :=
  fun ev => decide (ev.target = k.1 ∧ ev.collider = k.2)

/-- Does an event carry this pair key and this integer frame? -/
def evKeyFramePred (k : String × String) (F : ℤ) : Event → Bool :=
  fun ev => decide (ev.target = k.1 ∧ ev.collider = k.2 ∧ ev.frame = (F : ℚ))

theorem mk_event_fields (vlen : V3 → ℚ) (fps : ℚ) (frame : ℤ)
    (curPos curVel : String → V3) (bc : List V3) (k : String × String) :
    (mk_event vlen fps frame curPos curVel bc k).target = k.1 ∧
    (mk_event vlen fps frame curPos curVel bc k).collider = k.2 ∧
    (mk_event vlen fps frame curPos curVel bc k).frame = (frame : ℚ) ∧
    (mk_event vlen fps frame curPos curVel bc k).time
      = rndDec 6 ((frame : ℚ) / fps) ∧
    (mk_event vlen fps frame curPos curVel bc k).position
      = round_vec (contact_position (some bc) (curPos k.1)) := by
  refine ⟨rfl, rfl, rfl, rfl, rfl⟩

theorem evKeyPred_mk_event (k k' : String × String) (vlen : V3 → ℚ)
    (fps : ℚ) (frame : ℤ) (curPos curVel : String → V3) (bc : List V3) :
    evKeyPred k (mk_event vlen fps frame curPos curVel bc k')
      = decide (k' = k) := by
  unfold evKeyPred
  rcases mk_event_fields vlen fps frame curPos curVel bc k' with ⟨h1, h2, _⟩
  rw [h1, h2]
  apply decide_eq_decide.mpr
  exact (Prod.ext_iff).symm

theorem foldl_pair_step_append (vlen : V3 → ℚ) (fps : ℚ) (frame : ℤ)
    (curPos curVel : String → V3) (bvhc : String → Option (List V3))
    (thr : String × String → ℚ) :
    ∀ (ps : List (Obj × Obj)) (evs : List Event)
      (was : String × String → Bool),
      (ps.foldl (pair_step vlen fps frame curPos curVel bvhc thr) (evs, was)).1
        = evs ++
          (ps.foldl (pair_step vlen fps frame curPos curVel bvhc thr) ([], was)).1
      ∧ (ps.foldl (pair_step vlen fps frame curPos curVel bvhc thr) (evs, was)).2
        = (ps.foldl (pair_step vlen fps frame curPos curVel bvhc thr) ([], was)).2 := by
  intro ps
  induction ps with
  | nil => intro evs was; simp
  | cons p ps ih =>
    intro evs was
    simp only [List.foldl_cons]
    rw [pair_step_eq, pair_step_eq]
    cases h : testOf bvhc curPos thr (keyOf p) with
    | none => exact ih evs was
    | some b =>
      simp only
      cases hb : b && !was (keyOf p) with
      | false =>
        simp only [Bool.false_eq_true, if_false]
        exact ih evs (fun k => if k = keyOf p then b else was k)
      | true =>
        simp only [if_true, List.nil_append]
        set e := mk_event vlen fps frame curPos curVel
          ((bvhc p.2.name).getD []) (keyOf p) with he
        obtain ⟨ih1, ih2⟩ := ih (evs ++ [e])
          (fun k => if k = keyOf p then b else was k)
        obtain ⟨ih1', ih2'⟩ := ih [e]
          (fun k => if k = keyOf p then b else was k)
        constructor
        · rw [ih1, ih1']
          simp
        · rw [ih2, ih2']

theorem foldl_pair_step_snd_other (vlen : V3 → ℚ) (fps : ℚ) (frame : ℤ)
    (curPos curVel : String → V3) (bvhc : String → Option (List V3))
    (thr : String × String → ℚ) :
    ∀ (ps : List (Obj × Obj)) (acc : List Event × (String × String → Bool))
      (k : String × String), (∀ pr ∈ ps, keyOf pr ≠ k) →
      (ps.foldl (pair_step vlen fps frame curPos curVel bvhc thr) acc).2 k
        = acc.2 k := by
  intro ps
  induction ps with
  | nil => intro acc k _; rfl
  | cons p ps ih =>
    intro acc k hal
    simp only [List.foldl_cons]
    rw [pair_step_eq]
    have hp : keyOf p ≠ k := hal p (by simp)
    cases h : testOf bvhc curPos thr (keyOf p) with
    | none => exact ih acc k (fun pr hpr => hal pr (by simp [hpr]))
    | some b =>
      rw [ih _ k (fun pr hpr => hal pr (by simp [hpr]))]
      simp only
      rw [if_neg (fun hkk => hp hkk.symm)]

theorem foldl_pair_step_snd_key (vlen : V3 → ℚ) (fps : ℚ) (frame : ℤ)
    (curPos curVel : String → V3) (bvhc : String → Option (List V3))
    (thr : String × String → ℚ) :
    ∀ (ps : List (Obj × Obj)) (acc : List Event × (String × String → Bool))
      (pr₀ : Obj × Obj) (k : String × String), pr₀ ∈ ps → keyOf pr₀ = k →
      (ps.foldl (pair_step vlen fps frame curPos curVel bvhc thr) acc).2 k
        = (testOf bvhc curPos thr k).getD (acc.2 k) := by
  intro ps
  induction ps with
  | nil => intro _ _ _ hmem _; simp at hmem
  | cons p ps ih =>
    intro acc pr₀ k hmem hkey
    simp only [List.foldl_cons]
    rw [pair_step_eq]
    by_cases hk : keyOf p = k
    · rw [hk]
      cases h : testOf bvhc curPos thr k with
      | none =>
        by_cases hex : ∃ pr ∈ ps, keyOf pr = k
        · obtain ⟨pr', hpr', hk'⟩ := hex
          rw [ih acc pr' k hpr' hk', h]
        · push_neg at hex
          rw [foldl_pair_step_snd_other vlen fps frame curPos curVel bvhc thr
            ps acc k hex]
          rfl
      | some b =>
        have hupd : ((if b && !acc.2 k then
              acc.1 ++ [mk_event vlen fps frame curPos curVel
                ((bvhc p.2.name).getD []) k]
            else acc.1),
           fun k' => if k' = k then b else acc.2 k').2 k = b := by
          simp
        by_cases hex : ∃ pr ∈ ps, keyOf pr = k
        · obtain ⟨pr', hpr', hk'⟩ := hex
          rw [ih _ pr' k hpr' hk', h, hupd]
          rfl
        · push_neg at hex
          rw [foldl_pair_step_snd_other vlen fps frame curPos curVel bvhc thr
            ps _ k hex, hupd]
          rfl
    · have hp0 : pr₀ ∈ ps := by
        rcases List.mem_cons.mp hmem with h | h
        · exact absurd (h ▸ hkey) hk
        · exact h
      cases h : testOf bvhc curPos thr (keyOf p) with
      | none => exact ih acc pr₀ k hp0 hkey
      | some b =>
        rw [ih _ pr₀ k hp0 hkey]
        simp only
        rw [if_neg (fun hkk => hk hkk.symm)]

theorem foldl_pair_step_countP_other (vlen : V3 → ℚ) (fps : ℚ) (frame : ℤ)
    (curPos curVel : String → V3) (bvhc : String → Option (List V3))
    (thr : String × String → ℚ) :
    ∀ (ps : List (Obj × Obj)) (acc : List Event × (String × String → Bool))
      (k : String × String), (∀ pr ∈ ps, keyOf pr ≠ k) →
      ((ps.foldl (pair_step vlen fps frame curPos curVel bvhc thr) acc).1).countP
          (evKeyPred k)
        = acc.1.countP (evKeyPred k) := by
  intro ps
  induction ps with
  | nil => intro acc k _; rfl
  | cons p ps ih =>
    intro acc k hal
    simp only [List.foldl_cons]
    rw [pair_step_eq]
    have hp : keyOf p ≠ k := hal p (by simp)
    have hrest : ∀ pr ∈ ps, keyOf pr ≠ k := fun pr hpr => hal pr (by simp [hpr])
    cases h : testOf bvhc curPos thr (keyOf p) with
    | none => exact ih acc k hrest
    | some b =>
      rw [ih _ k hrest]
      simp only
      cases hb : b && !acc.2 (keyOf p) with
      | false => simp
      | true =>
        simp only [if_true]
        rw [List.countP_append]
        have he : evKeyPred k (mk_event vlen fps frame curPos curVel
            ((bvhc p.2.name).getD []) (keyOf p)) = false := by
          rw [evKeyPred_mk_event]
          exact decide_eq_false hp
        simp [List.countP_cons, he]

theorem foldl_pair_step_countP_key (vlen : V3 → ℚ) (fps : ℚ) (frame : ℤ)
    (curPos curVel : String → V3) (bvhc : String → Option (List V3))
    (thr : String × String → ℚ) :
    ∀ (ps : List (Obj × Obj)) (acc : List Event × (String × String → Bool))
      (pr₀ : Obj × Obj) (k : String × String), pr₀ ∈ ps → keyOf pr₀ = k →
      ((ps.foldl (pair_step vlen fps frame curPos curVel bvhc thr) acc).1).countP
          (evKeyPred k)
        = acc.1.countP (evKeyPred k)
          + (if testOf bvhc curPos thr k = some true ∧ acc.2 k = false
             then 1 else 0) := by
  intro ps
  induction ps with
  | nil => intro _ _ _ hmem _; simp at hmem
  | cons p ps ih =>
    intro acc pr₀ k hmem hkey
    simp only [List.foldl_cons]
    rw [pair_step_eq]
    by_cases hk : keyOf p = k
    · rw [hk]
      cases h : testOf bvhc curPos thr k with
      | none =>
        dsimp only
        by_cases hex : ∃ pr ∈ ps, keyOf pr = k
        · obtain ⟨pr', hpr', hk'⟩ := hex
          rw [ih acc pr' k hpr' hk', h]
        · push_neg at hex
          rw [foldl_pair_step_countP_other vlen fps frame curPos curVel bvhc thr
            ps acc k hex]
          simp
      | some b =>
        dsimp only
        set e := mk_event vlen fps frame curPos curVel
          ((bvhc p.2.name).getD []) k with he
        have hpe : evKeyPred k e = true := by
          rw [he, evKeyPred_mk_event]
          exact decide_eq_true rfl
        set acc' : List Event × (String × String → Bool) :=
          ((if b && !acc.2 k then acc.1 ++ [e] else acc.1),
           fun k' => if k' = k then b else acc.2 k') with hacc'
        have hsnd : acc'.2 k = b := by rw [hacc']; simp
        have hcount : (ps.foldl
              (pair_step vlen fps frame curPos curVel bvhc thr) acc').1.countP
              (evKeyPred k)
            = acc'.1.countP (evKeyPred k)
              + (if testOf bvhc curPos thr k = some true ∧ acc'.2 k = false
                 then 1 else 0) := by
          by_cases hex : ∃ pr ∈ ps, keyOf pr = k
          · obtain ⟨pr', hpr', hk'⟩ := hex
            exact ih acc' pr' k hpr' hk'
          · push_neg at hex
            rw [foldl_pair_step_countP_other vlen fps frame curPos curVel bvhc
              thr ps acc' k hex]
            have hng : ¬ (testOf bvhc curPos thr k = some true ∧
                acc'.2 k = false) := by
              rintro ⟨hcc, hbb⟩
              rw [h] at hcc
              rw [hsnd] at hbb
              injection hcc with hcc'
              rw [hcc'] at hbb
              exact Bool.noConfusion hbb
            rw [if_neg hng]
            simp
        rw [hcount, h, hsnd]
        cases b with
        | false =>
          rw [hacc']
          simp
        | true =>
          cases hw : acc.2 k with
          | false =>
            rw [hacc']
            simp [hw, hpe, List.countP_append, List.countP_cons]
          | true =>
            rw [hacc']
            simp [hw]
    · have hp0 : pr₀ ∈ ps := by
        rcases List.mem_cons.mp hmem with h | h
        · exact absurd (h ▸ hkey) hk
        · exact h
      cases h : testOf bvhc curPos thr (keyOf p) with
      | none => exact ih acc pr₀ k hp0 hkey
      | some b =>
        set acc' : List Event × (String × String → Bool) :=
          ((if b && !acc.2 (keyOf p) then
              acc.1 ++ [mk_event vlen fps frame curPos curVel
                ((bvhc p.2.name).getD []) (keyOf p)]
            else acc.1),
           fun k' => if k' = keyOf p then b else acc.2 k') with hacc'
        have hfst : acc'.1.countP (evKeyPred k) = acc.1.countP (evKeyPred k) := by
          rw [hacc']
          cases hb : b && !acc.2 (keyOf p) with
          | false => simp
          | true =>
            simp only [if_true]
            rw [List.countP_append]
            have he : evKeyPred k (mk_event vlen fps frame curPos curVel
                ((bvhc p.2.name).getD []) (keyOf p)) = false := by
              rw [evKeyPred_mk_event]
              exact decide_eq_false hk
            simp [List.countP_cons, he]
        have hsnd : acc'.2 k = acc.2 k := by
          rw [hacc']
          simp only
          rw [if_neg (fun hkk => hk hkk.symm)]
        rw [ih acc' pr₀ k hp0 hkey, hfst, hsnd]

theorem foldl_pair_step_mem (vlen : V3 → ℚ) (fps : ℚ) (frame : ℤ)
    (curPos curVel : String → V3) (bvhc : String → Option (List V3))
    (thr : String × String → ℚ) :
    ∀ (ps : List (Obj × Obj)) (acc : List Event × (String × String → Bool))
      (ev : Event), ev ∈ (ps.foldl
        (pair_step vlen fps frame curPos curVel bvhc thr) acc).1 →
      ev ∈ acc.1 ∨ ∃ pr ∈ ps, ∃ bvh_c,
        bvhc pr.2.name = some bvh_c ∧
        ev = mk_event vlen fps frame curPos curVel bvh_c (keyOf pr) := by
  intro ps
  induction ps with
  | nil => intro acc ev h; exact Or.inl h
  | cons p ps ih =>
    intro acc ev h
    simp only [List.foldl_cons] at h
    rw [pair_step_eq] at h
    cases ht : testOf bvhc curPos thr (keyOf p) with
    | none =>
      rw [ht] at h
      rcases ih acc ev h with h1 | ⟨pr, hpr, bc, hbc, hev⟩
      · exact Or.inl h1
      · exact Or.inr ⟨pr, by simp [hpr], bc, hbc, hev⟩
    | some b =>
      rw [ht] at h
      simp only at h
      cases hb : b && !acc.2 (keyOf p) with
      | false =>
        rw [hb] at h
        simp only [Bool.false_eq_true, if_false] at h
        rcases ih _ ev h with h1 | ⟨pr, hpr, bc, hbc, hev⟩
        · exact Or.inl h1
        · exact Or.inr ⟨pr, by simp [hpr], bc, hbc, hev⟩
      | true =>
        rw [hb] at h
        simp only [if_true] at h
        rcases ih _ ev h with h1 | ⟨pr, hpr, bc, hbc, hev⟩
        · rcases List.mem_append.mp h1 with h2 | h2
          · exact Or.inl h2
          · obtain ⟨bvh_t, bvh_c, hb1, hb2, _⟩ := testOf_eq_some ht
            refine Or.inr ⟨p, by simp, bvh_c, hb2, ?_⟩
            have hb2' : bvhc p.2.name = some bvh_c := hb2
            have hgd : (bvhc p.2.name).getD [] = bvh_c := by rw [hb2']; rfl
            rw [← hgd]
            simpa using h2
        · exact Or.inr ⟨pr, by simp [hpr], bc, hbc, hev⟩

/-!  Characterisation of a whole scanned frame and of pass 1. -/

/-- The per-frame position cache (`cur_positions`). -/
def framePos (allObjs : String → Obj) (f : ℤ) : String → V3 :=
  fun n => (allObjs n).posAt (f : ℚ)

/-- The per-frame velocity cache (`cur_velocities`). -/
def frameVel (fps : ℚ) (allObjs : String → Obj) (f : ℤ)
    (prev : Option (String → V3)) : String → V3 :=
  fun n =>
    match prev with
    | some p => V3.smul fps (V3.sub (framePos allObjs f n) (p n))
    | none => V3.zero

/-- The per-frame proxy cache (`bvh_cache`). -/
def frameBvh (allObjs : String → Obj) (f : ℤ) : String → Option (List V3) :=
  fun n => bvh_from_object (allObjs n) (f : ℚ)

theorem scan_frame_eq (vlen : V3 → ℚ) (fps : ℚ) (allObjs : String → Obj)
    (pairs : List (Obj × Obj)) (thr : String × String → ℚ)
    (st : ScanSt) (f : ℤ) :
    scan_frame vlen fps allObjs pairs thr st f
      = { collision_events :=
            (pairs.foldl (pair_step vlen fps f (framePos allObjs f)
              (frameVel fps allObjs f st.prev_positions) (frameBvh allObjs f) thr)
              (st.collision_events, st.was_in_contact)).1
          was_in_contact :=
            (pairs.foldl (pair_step vlen fps f (framePos allObjs f)
              (frameVel fps allObjs f st.prev_positions) (frameBvh allObjs f) thr)
              (st.collision_events, st.was_in_contact)).2
          prev_positions := some (framePos allObjs f) } := rfl

theorem inContactAt_eq_testOf' (allObjs : String → Obj)
    (thr : String × String → ℚ) (k : String × String) (f : ℤ) :
    inContactAt allObjs thr k f
      = testOf (frameBvh allObjs f) (framePos allObjs f) thr k := rfl

/-- Shape of every event pass 1 emits at frame `f`: the recorded frame and
time, names coming from a scanned pair, and the contact position obtained
from the collider's proxy and the target's sampled location. -/
def eventShape (fps : ℚ) (allObjs : String → Obj)
    (pairs : List (Obj × Obj)) (f : ℤ) (ev : Event) : Prop :=
  ev.frame = (f : ℚ) ∧ ev.time = rndDec 6 ((f : ℚ) / fps) ∧
  ∃ pr ∈ pairs, ev.target = pr.1.name ∧ ev.collider = pr.2.name ∧
    ∃ bc, bvh_from_object (allObjs pr.2.name) (f : ℚ) = some bc ∧
      ev.position = round_vec (contact_position (some bc)
        ((allObjs pr.1.name).posAt (f : ℚ)))

theorem scan_frame_mem {vlen : V3 → ℚ} {fps : ℚ} {allObjs : String → Obj}
    {pairs : List (Obj × Obj)} {thr : String × String → ℚ}
    {st : ScanSt} {f : ℤ} {ev : Event}
    (h : ev ∈ (scan_frame vlen fps allObjs pairs thr st f).collision_events) :
    ev ∈ st.collision_events ∨ eventShape fps allObjs pairs f ev := by
  rw [scan_frame_eq] at h
  rcases foldl_pair_step_mem vlen fps f (framePos allObjs f)
      (frameVel fps allObjs f st.prev_positions) (frameBvh allObjs f) thr
      pairs _ ev h with h1 | ⟨pr, hpr, bc, hbc, hev⟩
  · exact Or.inl h1
  · refine Or.inr ⟨?_, ?_, pr, hpr, ?_, ?_, bc, hbc, ?_⟩ <;> rw [hev] <;> rfl

theorem scan_frame_was_key {vlen : V3 → ℚ} {fps : ℚ} {allObjs : String → Obj}
    {pairs : List (Obj × Obj)} {thr : String × String → ℚ}
    {st : ScanSt} {f : ℤ} {k : String × String} {pr₀ : Obj × Obj}
    (hmem : pr₀ ∈ pairs) (hkey : keyOf pr₀ = k) :
    (scan_frame vlen fps allObjs pairs thr st f).was_in_contact k
      = (inContactAt allObjs thr k f).getD (st.was_in_contact k) := by
  rw [scan_frame_eq, inContactAt_eq_testOf']
  exact foldl_pair_step_snd_key vlen fps f (framePos allObjs f)
    (frameVel fps allObjs f st.prev_positions) (frameBvh allObjs f) thr
    pairs _ pr₀ k hmem hkey

theorem scan_frame_countP_key {vlen : V3 → ℚ} {fps : ℚ}
    {allObjs : String → Obj} {pairs : List (Obj × Obj)}
    {thr : String × String → ℚ} {st : ScanSt} {f : ℤ}
    {k : String × String} {pr₀ : Obj × Obj}
    (hmem : pr₀ ∈ pairs) (hkey : keyOf pr₀ = k) :
    ((scan_frame vlen fps allObjs pairs thr st f).collision_events).countP
        (evKeyPred k)
      = st.collision_events.countP (evKeyPred k)
        + (if inContactAt allObjs thr k f = some true ∧
              st.was_in_contact k = false
           then 1 else 0) := by
  rw [scan_frame_eq, inContactAt_eq_testOf']
  exact foldl_pair_step_countP_key vlen fps f (framePos allObjs f)
    (frameVel fps allObjs f st.prev_positions) (frameBvh allObjs f) thr
    pairs _ pr₀ k hmem hkey

theorem scan_frame_countP_keyframe {vlen : V3 → ℚ} {fps : ℚ}
    {allObjs : String → Obj} {pairs : List (Obj × Obj)}
    {thr : String × String → ℚ} {st : ScanSt} {f F : ℤ}
    {k : String × String} {pr₀ : Obj × Obj}
    (hmem : pr₀ ∈ pairs) (hkey : keyOf pr₀ = k) :
    ((scan_frame vlen fps allObjs pairs thr st f).collision_events).countP
        (evKeyFramePred k F)
      = st.collision_events.countP (evKeyFramePred k F)
        + (if f = F ∧ inContactAt allObjs thr k f = some true ∧
              st.was_in_contact k = false
           then 1 else 0) := by
  rw [scan_frame_eq]
  obtain ⟨happ, -⟩ := foldl_pair_step_append vlen fps f (framePos allObjs f)
    (frameVel fps allObjs f st.prev_positions) (frameBvh allObjs f) thr
    pairs st.collision_events st.was_in_contact
  simp only
  rw [happ, List.countP_append]
  by_cases hf : f = F
  · subst hf
    have hcongr : (pairs.foldl (pair_step vlen fps f (framePos allObjs f)
        (frameVel fps allObjs f st.prev_positions) (frameBvh allObjs f) thr)
        ([], st.was_in_contact)).1.countP (evKeyFramePred k f)
        = (pairs.foldl (pair_step vlen fps f (framePos allObjs f)
        (frameVel fps allObjs f st.prev_positions) (frameBvh allObjs f) thr)
        ([], st.was_in_contact)).1.countP (evKeyPred k) := by
      apply List.countP_congr
      intro ev hev
      rcases foldl_pair_step_mem vlen fps f (framePos allObjs f)
          (frameVel fps allObjs f st.prev_positions) (frameBvh allObjs f) thr
          pairs _ ev hev with h1 | ⟨pr, _hpr, bc, _hbc, hev'⟩
      · simp at h1
      · unfold evKeyFramePred evKeyPred
        simp only [decide_eq_true_eq]
        have hfr : ev.frame = (f : ℚ) := by rw [hev']; rfl
        constructor
        · rintro ⟨h1, h2, _⟩; exact ⟨h1, h2⟩
        · rintro ⟨h1, h2⟩; exact ⟨h1, h2, hfr⟩
    rw [hcongr]
    have hcount := foldl_pair_step_countP_key vlen fps f (framePos allObjs f)
      (frameVel fps allObjs f st.prev_positions) (frameBvh allObjs f) thr
      pairs ([], st.was_in_contact) pr₀ k hmem hkey
    rw [hcount, inContactAt_eq_testOf']
    simp
  · have hzero : (pairs.foldl (pair_step vlen fps f (framePos allObjs f)
        (frameVel fps allObjs f st.prev_positions) (frameBvh allObjs f) thr)
        ([], st.was_in_contact)).1.countP (evKeyFramePred k F) = 0 := by
      rw [List.countP_eq_zero]
      intro ev hev
      rcases foldl_pair_step_mem vlen fps f (framePos allObjs f)
          (frameVel fps allObjs f st.prev_positions) (frameBvh allObjs f) thr
          pairs _ ev hev with h1 | ⟨pr, _hpr, bc, _hbc, hev'⟩
      · simp at h1
      · unfold evKeyFramePred
        simp only [decide_eq_true_eq]
        rintro ⟨-, -, hfr⟩
        have hfr' : ev.frame = (f : ℚ) := by rw [hev']; rfl
        rw [hfr'] at hfr
        have : f = F := by exact_mod_cast hfr
        exact hf this
    rw [hzero]
    rw [if_neg (fun hc => hf hc.1)]

theorem pass1_foldl_was (vlen : V3 → ℚ) (fps : ℚ) (allObjs : String → Obj)
    (pairs : List (Obj × Obj)) (thr : String × String → ℚ) :
    ∀ (fs : List ℤ) (st : ScanSt) (k : String × String) (pr₀ : Obj × Obj),
      pr₀ ∈ pairs → keyOf pr₀ = k →
      (fs.foldl (scan_frame vlen fps allObjs pairs thr) st).was_in_contact k
        = fs.foldl (fun b f => (inContactAt allObjs thr k f).getD b)
            (st.was_in_contact k) := by
  intro fs
  induction fs with
  | nil => intro st k pr₀ _ _; rfl
  | cons f fs ih =>
    intro st k pr₀ hmem hkey
    simp only [List.foldl_cons]
    rw [ih _ k pr₀ hmem hkey, scan_frame_was_key hmem hkey]

theorem pass1_foldl_countP_no (vlen : V3 → ℚ) (fps : ℚ)
    (allObjs : String → Obj) (pairs : List (Obj × Obj))
    (thr : String × String → ℚ) :
    ∀ (fs : List ℤ) (st : ScanSt) (k : String × String) (F : ℤ)
      (pr₀ : Obj × Obj), pr₀ ∈ pairs → keyOf pr₀ = k → F ∉ fs →
      ((fs.foldl (scan_frame vlen fps allObjs pairs thr) st).collision_events).countP
          (evKeyFramePred k F)
        = st.collision_events.countP (evKeyFramePred k F) := by
  intro fs
  induction fs with
  | nil => intro st k F pr₀ _ _ _; rfl
  | cons f fs ih =>
    intro st k F pr₀ hmem hkey hF
    simp only [List.foldl_cons]
    have hf : f ≠ F := fun h => hF (by simp [h])
    have hF' : F ∉ fs := fun h => hF (by simp [h])
    rw [ih _ k F pr₀ hmem hkey hF', scan_frame_countP_keyframe hmem hkey]
    rw [if_neg (fun hc => hf hc.1)]
    simp

theorem pass1_foldl_mem (vlen : V3 → ℚ) (fps : ℚ) (allObjs : String → Obj)
    (pairs : List (Obj × Obj)) (thr : String × String → ℚ) :
    ∀ (fs : List ℤ) (st : ScanSt) (ev : Event),
      ev ∈ (fs.foldl (scan_frame vlen fps allObjs pairs thr) st).collision_events →
      ev ∈ st.collision_events ∨ ∃ f ∈ fs, eventShape fps allObjs pairs f ev := by
  intro fs
  induction fs with
  | nil => intro st ev h; exact Or.inl h
  | cons f fs ih =>
    intro st ev h
    simp only [List.foldl_cons] at h
    rcases ih _ ev h with h1 | ⟨f', hf', hs⟩
    · rcases scan_frame_mem h1 with h2 | h2
      · exact Or.inl h2
      · exact Or.inr ⟨f, by simp, h2⟩
    · exact Or.inr ⟨f', by simp [hf'], hs⟩

/-!  Concrete scenes used to instantiate the theorems below. -/

/-- A stand-in for the host's float vector length (its values are
irrelevant to every property proved here). -/
def vlen0 : V3 → ℚ := fun _ => 0

/-- A static mesh target sitting at the origin. -/
def objT : Obj :=
  ⟨"T", "MESH", none, fun _ => ⟨0, 0, 0⟩, fun _ => [⟨0, 0, 0⟩]⟩

/-- A collider that jumps onto the target at time 1. -/
def objC : Obj :=
  ⟨"C", "MESH", none, fun t => if t < 1 then ⟨10, 0, 0⟩ else ⟨0, 0, 0⟩,
   fun t => [if t < 1 then ⟨10, 0, 0⟩ else ⟨0, 0, 0⟩]⟩

/-- Two frames at 24 fps. -/
def sceneW : Scene := ⟨0, 1, 24, 1⟩

/-- Coarse-mode settings for the basic scene. -/
def settingsW : CollisionSoundsSettings := ⟨[objT], [objC], false, 8, false, ""⟩

/-- A collider reaching the target at time 9/10 (refines late). -/
def objC1 : Obj :=
  ⟨"C1", "MESH", none, fun t => if t < 9/10 then ⟨10, 0, 0⟩ else ⟨0, 0, 0⟩,
   fun t => [if t < 9/10 then ⟨10, 0, 0⟩ else ⟨0, 0, 0⟩]⟩

/-- A collider reaching the target at time 1/4 (refines early). -/
def objC2 : Obj :=
  ⟨"C2", "MESH", none, fun t => if t < 1/4 then ⟨10, 0, 0⟩ else ⟨0, 0, 0⟩,
   fun t => [if t < 1/4 then ⟨10, 0, 0⟩ else ⟨0, 0, 0⟩]⟩

/-- Two frames at 1 fps. -/
def sceneP : Scene := ⟨0, 1, 1, 1⟩

/-- Precision-mode settings pairing one target with the late and the
early collider, in that order. -/
def settingsP : CollisionSoundsSettings :=
  ⟨[objT], [objC1, objC2], true, 2, false, ""⟩

/-- A collider in contact with the target except at time 2, where its
mesh vanishes. -/
def objC4 : Obj :=
  ⟨"C", "MESH", none, fun _ => ⟨0, 0, 0⟩,
   fun t => if t = 2 then [] else [⟨0, 0, 0⟩]⟩

/-- Three frames at 24 fps. -/
def sceneC4 : Scene := ⟨1, 3, 24, 1⟩

/-- Coarse-mode settings for the vanishing-mesh scene. -/
def settingsC4 : CollisionSoundsSettings := ⟨[objT], [objC4], false, 8, false, ""⟩

/-- A mesh sharing the point (5,5,5) with `objB6` but whose reference
position is far from it. -/
def objA6 : Obj :=
  ⟨"A", "MESH", none, fun _ => ⟨0, 0, 0⟩, fun _ => [⟨0, 0, 0⟩, ⟨5, 5, 5⟩]⟩

/-- A mesh sharing the point (5,5,5) with `objA6`. -/
def objB6 : Obj :=
  ⟨"B", "MESH", none, fun _ => ⟨3, 0, 0⟩, fun _ => [⟨5, 5, 5⟩, ⟨3, 0, 0⟩]⟩

/-- Two frames at 24 fps. -/
def sceneC6 : Scene := ⟨0, 1, 24, 1⟩

/-- Coarse-mode settings for the overlapping-mesh scene. -/
def settingsC6 : CollisionSoundsSettings := ⟨[objA6], [objB6], false, 8, false, ""⟩

/-!  The claims. -/

/-- The rising-edge count formula for the coarse pass. -/
theorem coarse_countP_eq (vlen : V3 → ℚ) (t0 : ℚ) (scene : Scene)
    (settings : CollisionSoundsSettings) (t c : Obj)
    (hp : (t, c) ∈ scanPairs settings) (F : ℤ)
    (h1 : scene.frame_start ≤ F) (h2 : F ≤ scene.frame_end) :
    (coarseEvents vlen t0 scene settings).countP
        (evKeyFramePred (t.name, c.name) F)
      = if inContactAt (scanObjs settings) (scanThr t0 settings)
             (t.name, c.name) F = some true ∧
           wasAfter (scanObjs settings) (scanThr t0 settings) (t.name, c.name)
             (frameRange scene.frame_start (F - 1)) = false
        then 1 else 0 := by
  have hkey : keyOf (t, c) = (t.name, c.name) := rfl
  have hsplit := frameRange_append (s := scene.frame_start)
    (e := scene.frame_end) (F - 1) (by omega) (by omega)
  rw [show F - 1 + 1 = F by omega] at hsplit
  have hsplit2 : frameRange F scene.frame_end
      = frameRange F F ++ frameRange (F + 1) scene.frame_end :=
    frameRange_append F (by omega) h2
  rw [frameRange_self] at hsplit2
  unfold coarseEvents pass1
  rw [hsplit, hsplit2, List.foldl_append, List.foldl_append]
  simp only [List.foldl_cons, List.foldl_nil]
  have hno2 : F ∉ frameRange (F + 1) scene.frame_end := by
    rw [mem_frameRange]
    omega
  have hno1 : F ∉ frameRange scene.frame_start (F - 1) := by
    rw [mem_frameRange]
    omega
  rw [pass1_foldl_countP_no vlen (scanFps scene) (scanObjs settings)
    (scanPairs settings) (scanThr t0 settings)
    (frameRange (F + 1) scene.frame_end) _ _ F (t, c) hp hkey hno2]
  rw [scan_frame_countP_keyframe hp hkey]
  rw [pass1_foldl_countP_no vlen (scanFps scene) (scanObjs settings)
    (scanPairs settings) (scanThr t0 settings)
    (frameRange scene.frame_start (F - 1)) _ _ F (t, c) hp hkey hno1]
  rw [pass1_foldl_was vlen (scanFps scene) (scanObjs settings)
    (scanPairs settings) (scanThr t0 settings)
    (frameRange scene.frame_start (F - 1)) _ _ (t, c) hp hkey]
  simp only [List.countP_nil, Nat.zero_add]
  unfold wasAfter
  simp

/-- C1: for every (target, collider) pair and every sampled frame of the
scan range, the coarse pass emits exactly one collision event for that
pair at that frame when the pair's contact test observes `true` there
while the overlap state accumulated over all earlier sampled frames is
"not touching" (a rising edge), and none otherwise — so a pair whose test
stays true emits nothing further, and a pair that separates and comes
back into contact emits exactly one new event per rising edge. -/
theorem claim_C1 (vlen : V3 → ℚ) (t0 : ℚ) (scene : Scene)
    (settings : CollisionSoundsSettings) (t c : Obj)
    (hp : (t, c) ∈ scanPairs settings) (F : ℤ)
    (h1 : scene.frame_start ≤ F) (h2 : F ≤ scene.frame_end) :
    (coarseEvents vlen t0 scene settings).countP
        (evKeyFramePred (t.name, c.name) F)
      = if inContactAt (scanObjs settings) (scanThr t0 settings)
             (t.name, c.name) F = some true ∧
           wasAfter (scanObjs settings) (scanThr t0 settings) (t.name, c.name)
             (frameRange scene.frame_start (F - 1)) = false
        then 1 else 0 :=
  coarse_countP_eq vlen t0 scene settings t c hp F h1 h2

/-- The contact observation of the basic scene at frame 0: too far. -/
theorem sceneW_contact_0 :
    inContactAt (scanObjs settingsW) (scanThr 0 settingsW)
      (objT.name, objC.name) 0 = some false := by
  have hoT : scanObjs settingsW "T" = objT := rfl
  have hoC : scanObjs settingsW "C" = objC := rfl
  have hthW : scanThr 0 settingsW ("T", "C") = 9 / 100 := by
    have hstep : scanThr 0 settingsW ("T", "C")
        = collision_threshold 0 objT objC := rfl
    rw [hstep]
    norm_num [collision_threshold, objT, objC, COLLISION_EPSILON, DEFAULT_MARGIN]
  unfold inContactAt
  norm_num [hoT, hoC, hthW, bvh_from_object, surfaces_within_distance,
    findNearest, objT, objC, distSq, V3.normSq, V3.sub]

/-- The contact observation of the basic scene at frame 1: touching. -/
theorem sceneW_contact_1 :
    inContactAt (scanObjs settingsW) (scanThr 0 settingsW)
      (objT.name, objC.name) 1 = some true := by
  have hoT : scanObjs settingsW "T" = objT := rfl
  have hoC : scanObjs settingsW "C" = objC := rfl
  have hthW : scanThr 0 settingsW ("T", "C") = 9 / 100 := by
    have hstep : scanThr 0 settingsW ("T", "C")
        = collision_threshold 0 objT objC := rfl
    rw [hstep]
    norm_num [collision_threshold, objT, objC, COLLISION_EPSILON, DEFAULT_MARGIN]
  unfold inContactAt
  norm_num [hoT, hoC, hthW, bvh_from_object, surfaces_within_distance,
    findNearest, objT, objC, distSq, V3.normSq, V3.sub]

/-- Witness for C1 at a concrete scene: the pair is in the scanned pair
list, frame 1 lies in the range, and exactly one event is counted there. -/
theorem claim_C1_witness :
    (objT, objC) ∈ scanPairs settingsW ∧
    sceneW.frame_start ≤ 1 ∧ (1 : ℤ) ≤ sceneW.frame_end ∧
    (coarseEvents vlen0 0 sceneW settingsW).countP
        (evKeyFramePred (objT.name, objC.name) 1) = 1 := by
  have hps : scanPairs settingsW = [(objT, objC)] := rfl
  have hp : (objT, objC) ∈ scanPairs settingsW := by
    rw [hps]
    exact List.mem_singleton.mpr rfl
  refine ⟨hp, by norm_num [sceneW], by norm_num [sceneW], ?_⟩
  rw [claim_C1 vlen0 0 sceneW settingsW objT objC hp 1
    (by norm_num [sceneW]) (by norm_num [sceneW])]
  have hwas : wasAfter (scanObjs settingsW) (scanThr 0 settingsW)
      (objT.name, objC.name) (frameRange sceneW.frame_start (1 - 1)) = false := by
    have hfr : frameRange sceneW.frame_start (1 - 1) = [0] := by
      rw [show sceneW.frame_start = (0 : ℤ) from rfl,
        show (1 : ℤ) - 1 = 0 from rfl, frameRange_self]
    rw [hfr]
    unfold wasAfter
    rw [List.foldl_cons, List.foldl_nil, sceneW_contact_0]
    rfl
  rw [if_pos ⟨sceneW_contact_1, hwas⟩]

/-!  Bridges between `detect_collisions` and its two passes. -/

theorem detect_nonprecision (vlen : V3 → ℚ) (t0 : ℚ) (scene : Scene)
    (settings : CollisionSoundsSettings)
    (h : settings.precision_mode = false) :
    detect_collisions vlen t0 scene settings
      = coarseEvents vlen t0 scene settings := by
  simp only [detect_collisions, coarseEvents, scanFps, scanObjs, scanPairs,
    scanThr, scanTargets, scanColliders, h]
  simp

theorem detect_precision_empty (vlen : V3 → ℚ) (t0 : ℚ) (scene : Scene)
    (settings : CollisionSoundsSettings)
    (hie : (coarseEvents vlen t0 scene settings).isEmpty = true) :
    detect_collisions vlen t0 scene settings
      = coarseEvents vlen t0 scene settings := by
  simp only [coarseEvents, scanFps, scanObjs, scanPairs, scanThr,
    scanTargets, scanColliders] at hie
  simp only [detect_collisions, coarseEvents, scanFps, scanObjs, scanPairs,
    scanThr, scanTargets, scanColliders, hie]
  simp

theorem detect_precision (vlen : V3 → ℚ) (t0 : ℚ) (scene : Scene)
    (settings : CollisionSoundsSettings)
    (h : settings.precision_mode = true)
    (hie : (coarseEvents vlen t0 scene settings).isEmpty = false) :
    detect_collisions vlen t0 scene settings
      = refine_events vlen scene.frame_start (scanObjs settings)
          (scanThr t0 settings) settings.substeps (scanFps scene)
          (coarseEvents vlen t0 scene settings) := by
  simp only [coarseEvents, scanFps, scanObjs, scanPairs, scanThr,
    scanTargets, scanColliders] at hie
  simp only [detect_collisions, coarseEvents, scanFps, scanObjs, scanPairs,
    scanThr, scanTargets, scanColliders, h, hie]
  simp

theorem coarse_mem_shape {vlen : V3 → ℚ} {t0 : ℚ} {scene : Scene}
    {settings : CollisionSoundsSettings} {ev : Event}
    (hev : ev ∈ coarseEvents vlen t0 scene settings) :
    ∃ f ∈ frameRange scene.frame_start scene.frame_end,
      eventShape (scanFps scene) (scanObjs settings) (scanPairs settings) f ev := by
  rcases pass1_foldl_mem vlen (scanFps scene) (scanObjs settings)
      (scanPairs settings) (scanThr t0 settings)
      (frameRange scene.frame_start scene.frame_end) _ ev hev with h | h
  · simp at h
  · exact h

theorem refine_event_fields (vlen : V3 → ℚ) (frame_start : ℤ)
    (allObjs : String → Obj) (thr : String × String → ℚ) (substeps : ℕ)
    (fps : ℚ) (ev : Event) :
    (refine_event vlen frame_start allObjs thr substeps fps ev).target
      = (allObjs ev.target).name ∧
    (refine_event vlen frame_start allObjs thr substeps fps ev).collider
      = (allObjs ev.collider).name ∧
    (refine_event vlen frame_start allObjs thr substeps fps ev).frame
      = rndDec 4 (refine_precise frame_start allObjs thr substeps ev) ∧
    (refine_event vlen frame_start allObjs thr substeps fps ev).position
      = round_vec (match bvh_from_object (allObjs ev.collider)
            (refine_precise frame_start allObjs thr substeps ev) with
          | some b => contact_position (some b) ((allObjs ev.target).posAt
              (refine_precise frame_start allObjs thr substeps ev))
          | none => (allObjs ev.target).posAt
              (refine_precise frame_start allObjs thr substeps ev)) ∧
    (refine_event vlen frame_start allObjs thr substeps fps ev).time
      = rndDec 6 ((refine_precise frame_start allObjs thr substeps ev) / fps) :=
  ⟨rfl, rfl, rfl, rfl, rfl⟩

/-- Names carried by a coarse event name objects of the scanned
collections. -/
theorem coarse_names {fps : ℚ} {allObjs : String → Obj}
    {targets colliders : List Obj} {f : ℤ} {ev : Event}
    (hs : eventShape fps allObjs (pairsOf targets colliders) f ev) :
    (∃ o ∈ targets ++ colliders, o.name = ev.target) ∧
    (∃ o ∈ targets ++ colliders, o.name = ev.collider) := by
  obtain ⟨-, -, pr, hpr, ht, hc, -⟩ := hs
  obtain ⟨h1, h2⟩ := mem_pairsOf.mp hpr
  constructor
  · exact ⟨pr.1, List.mem_append.mpr (Or.inl h1), ht.symm⟩
  · exact ⟨pr.2, List.mem_append.mpr (Or.inr h2), hc.symm⟩

/-- C2: for every event returned by a scan (coarse or refined), there is
a sample time `t` — the event's own frame in coarse mode, the sub-frame
onset whose 4-decimal rounding is the recorded frame in precision mode —
such that the reported contact position is the rounded nearest point on
the struck surface (the object recorded under the event's `collider`
key, the specification's "target" role) to the striking object's sampled
position, falling back to the striking object's raw position when the
struck surface has no geometry at `t`. -/
theorem claim_C2 (vlen : V3 → ℚ) (t0 : ℚ) (scene : Scene)
    (settings : CollisionSoundsSettings) (ev : Event)
    (hev : ev ∈ detect_collisions vlen t0 scene settings) :
    ∃ t : ℚ,
      (settings.precision_mode = false → t = ev.frame) ∧
      (settings.precision_mode = true → ev.frame = rndDec 4 t) ∧
      ((scanObjs settings ev.collider).meshAt t = [] →
        ev.position = round_vec ((scanObjs settings ev.target).posAt t)) ∧
      ((scanObjs settings ev.collider).meshAt t ≠ [] →
        ∃ p ∈ (scanObjs settings ev.collider).meshAt t,
          (∀ r ∈ (scanObjs settings ev.collider).meshAt t,
            distSq ((scanObjs settings ev.target).posAt t) p
              ≤ distSq ((scanObjs settings ev.target).posAt t) r) ∧
          ev.position = round_vec p) := by
  cases hprec : settings.precision_mode
  · rw [detect_nonprecision vlen t0 scene settings hprec] at hev
    obtain ⟨f, -, hs⟩ := coarse_mem_shape hev
    obtain ⟨hfr, -, pr, hpr, ht, hc, bc, hbc, hpos⟩ := hs
    obtain ⟨hmesh, hne⟩ := bvh_from_object_eq_some hbc
    refine ⟨(f : ℚ), fun _ => hfr.symm, fun h => absurd h (by simp), ?_, ?_⟩
    · intro hempty
      rw [hc, hmesh] at hempty
      exact absurd hempty hne
    · intro _
      rw [ht, hc, hmesh]
      obtain ⟨p, hp⟩ := findNearest_isSome hne ((scanObjs settings pr.1.name).posAt (f : ℚ))
      obtain ⟨hpmem, hpmin⟩ := findNearest_spec hp
      refine ⟨p, hpmem, hpmin, ?_⟩
      rw [hpos]
      simp [contact_position, hp]
  · cases hie : (coarseEvents vlen t0 scene settings).isEmpty
    · rw [detect_precision vlen t0 scene settings hprec hie] at hev
      unfold refine_events at hev
      obtain ⟨ev₀, hev₀, hmap⟩ := List.mem_map.mp hev
      obtain ⟨f, -, hs⟩ := coarse_mem_shape hev₀
      obtain ⟨hnt, hnc⟩ := coarse_names hs
      have htn : (scanObjs settings ev₀.target).name = ev₀.target :=
        all_objects_map_name hnt
      have hcn : (scanObjs settings ev₀.collider).name = ev₀.collider :=
        all_objects_map_name hnc
      obtain ⟨hft, hfc, hff, hfp, -⟩ := refine_event_fields vlen scene.frame_start
        (scanObjs settings) (scanThr t0 settings) settings.substeps
        (scanFps scene) ev₀
      set t := refine_precise scene.frame_start (scanObjs settings)
        (scanThr t0 settings) settings.substeps ev₀ with hτ
      have hevt : ev.target = ev₀.target := by rw [← hmap, hft, htn]
      have hevc : ev.collider = ev₀.collider := by rw [← hmap, hfc, hcn]
      refine ⟨t, fun h => absurd h (by simp), fun _ => ?_, ?_, ?_⟩
      · rw [← hmap, hff]
      · intro hempty
        rw [hevt, hevc] at *
        have hbvh : bvh_from_object (scanObjs settings ev₀.collider) t = none := by
          unfold bvh_from_object
          rw [hevc] at hempty
          simp [hempty]
        rw [← hmap, hfp, hbvh, hevt]
      · intro hne
        rw [hevc] at hne
        cases hbvh : bvh_from_object (scanObjs settings ev₀.collider) t with
        | none =>
          exact absurd (bvh_from_object_eq_none hbvh) hne
        | some b =>
          obtain ⟨hmesh, hbne⟩ := bvh_from_object_eq_some hbvh
          rw [hevc, hmesh]
          obtain ⟨p, hp⟩ := findNearest_isSome hbne
            ((scanObjs settings ev₀.target).posAt t)
          obtain ⟨hpmem, hpmin⟩ := findNearest_spec hp
          rw [hevt]
          refine ⟨p, hpmem, hpmin, ?_⟩
          rw [← hmap, hfp, hbvh]
          simp [contact_position, hp]
    · rw [detect_precision_empty vlen t0 scene settings hie] at hev
      rw [List.isEmpty_iff] at hie
      rw [hie] at hev
      simp at hev

/-- The basic scene's coarse pass finds exactly one event at frame 1. -/
theorem sceneW_count_one :
    (coarseEvents vlen0 0 sceneW settingsW).countP
        (evKeyFramePred (objT.name, objC.name) 1) = 1 := by
  have hps : scanPairs settingsW = [(objT, objC)] := rfl
  have hp : (objT, objC) ∈ scanPairs settingsW := by
    rw [hps]
    exact List.mem_singleton.mpr rfl
  rw [coarse_countP_eq vlen0 0 sceneW settingsW objT objC hp 1
    (by norm_num [sceneW]) (by norm_num [sceneW])]
  have hwas : wasAfter (scanObjs settingsW) (scanThr 0 settingsW)
      (objT.name, objC.name) (frameRange sceneW.frame_start (1 - 1)) = false := by
    have hfr : frameRange sceneW.frame_start (1 - 1) = [0] := by
      rw [show sceneW.frame_start = (0 : ℤ) from rfl,
        show (1 : ℤ) - 1 = 0 from rfl, frameRange_self]
    rw [hfr]
    unfold wasAfter
    rw [List.foldl_cons, List.foldl_nil, sceneW_contact_0]
    rfl
  rw [if_pos ⟨sceneW_contact_1, hwas⟩]

/-- Witness for C2: the basic scene returns an event, and the theorem
yields its contact-position characterisation. -/
theorem claim_C2_witness :
    ∃ ev, ev ∈ detect_collisions vlen0 0 sceneW settingsW ∧
      ∃ t : ℚ,
        (settingsW.precision_mode = false → t = ev.frame) ∧
        (settingsW.precision_mode = true → ev.frame = rndDec 4 t) ∧
        ((scanObjs settingsW ev.collider).meshAt t = [] →
          ev.position = round_vec ((scanObjs settingsW ev.target).posAt t)) ∧
        ((scanObjs settingsW ev.collider).meshAt t ≠ [] →
          ∃ p ∈ (scanObjs settingsW ev.collider).meshAt t,
            (∀ r ∈ (scanObjs settingsW ev.collider).meshAt t,
              distSq ((scanObjs settingsW ev.target).posAt t) p
                ≤ distSq ((scanObjs settingsW ev.target).posAt t) r) ∧
            ev.position = round_vec p) := by
  have hpos : 0 < (coarseEvents vlen0 0 sceneW settingsW).countP
      (evKeyFramePred (objT.name, objC.name) 1) := by
    rw [sceneW_count_one]
    norm_num
  rw [List.countP_pos_iff] at hpos
  obtain ⟨ev, hev, -⟩ := hpos
  have hdet : detect_collisions vlen0 0 sceneW settingsW
      = coarseEvents vlen0 0 sceneW settingsW :=
    detect_nonprecision vlen0 0 sceneW settingsW rfl
  refine ⟨ev, by rw [hdet]; exact hev, ?_⟩
  exact claim_C2 vlen0 0 sceneW settingsW ev (by rw [hdet]; exact hev)

/-!  Ordering of the coarse event list, and refinement time bounds. -/

theorem scan_frame_frame_of_new {vlen : V3 → ℚ} {fps : ℚ}
    {allObjs : String → Obj} {pairs : List (Obj × Obj)}
    {thr : String × String → ℚ} {st : ScanSt} {f : ℤ} {ev : Event}
    (h : ev ∈ (scan_frame vlen fps allObjs pairs thr st f).collision_events) :
    ev ∈ st.collision_events ∨ ev.frame = (f : ℚ) := by
  rcases scan_frame_mem h with h1 | h1
  · exact Or.inl h1
  · exact Or.inr h1.1

theorem pass1_foldl_pairwise (vlen : V3 → ℚ) (fps : ℚ)
    (allObjs : String → Obj) (pairs : List (Obj × Obj))
    (thr : String × String → ℚ) :
    ∀ (fs : List ℤ) (st : ScanSt),
      st.collision_events.Pairwise (fun a b => a.frame ≤ b.frame) →
      (∀ ev ∈ st.collision_events, ∀ f ∈ fs, ev.frame ≤ (f : ℚ)) →
      fs.Pairwise (· < ·) →
      ((fs.foldl (scan_frame vlen fps allObjs pairs thr) st).collision_events).Pairwise
        (fun a b => a.frame ≤ b.frame) := by
  intro fs
  induction fs with
  | nil => intro st hpw _ _; exact hpw
  | cons f fs ih =>
    intro st hpw hub hfs
    simp only [List.foldl_cons]
    have hub1 : ∀ ev ∈ st.collision_events, ev.frame ≤ (f : ℚ) :=
      fun ev hev => hub ev hev f (by simp)
    have hpw' : ((scan_frame vlen fps allObjs pairs thr st f).collision_events).Pairwise
        (fun a b => a.frame ≤ b.frame) := by
      rw [scan_frame_eq]
      obtain ⟨happ, -⟩ := foldl_pair_step_append vlen fps f (framePos allObjs f)
        (frameVel fps allObjs f st.prev_positions) (frameBvh allObjs f) thr
        pairs st.collision_events st.was_in_contact
      simp only
      rw [happ]
      have hΔ : ∀ ev ∈ (pairs.foldl (pair_step vlen fps f (framePos allObjs f)
          (frameVel fps allObjs f st.prev_positions) (frameBvh allObjs f) thr)
          ([], st.was_in_contact)).1, ev.frame = (f : ℚ) := by
        intro ev hev
        rcases foldl_pair_step_mem vlen fps f (framePos allObjs f)
            (frameVel fps allObjs f st.prev_positions) (frameBvh allObjs f) thr
            pairs _ ev hev with h1 | ⟨pr, _, bc, _, hev'⟩
        · simp at h1
        · rw [hev']; rfl
      rw [List.pairwise_append]
      refine ⟨hpw, ?_, ?_⟩
      · exact List.pairwise_of_forall_mem_list
          (fun a ha b hb => by rw [hΔ a ha, hΔ b hb])
      · intro a ha b hb
        rw [hΔ b hb]
        exact hub1 a ha
    have hub' : ∀ ev ∈ (scan_frame vlen fps allObjs pairs thr st f).collision_events,
        ∀ f' ∈ fs, ev.frame ≤ (f' : ℚ) := by
      intro ev hev f' hf'
      rcases scan_frame_frame_of_new hev with h1 | h1
      · exact hub ev h1 f' (by simp [hf'])
      · rw [h1]
        have : f < f' := List.rel_of_pairwise_cons hfs hf'
        exact_mod_cast le_of_lt this
    exact ih _ hpw' hub' (List.Pairwise.of_cons hfs)

/-- The coarse event list is ordered by non-decreasing frame. -/
theorem coarse_pairwise_frame (vlen : V3 → ℚ) (t0 : ℚ) (scene : Scene)
    (settings : CollisionSoundsSettings) :
    (coarseEvents vlen t0 scene settings).Pairwise
      (fun a b => a.frame ≤ b.frame) := by
  unfold coarseEvents pass1
  exact pass1_foldl_pairwise vlen (scanFps scene) (scanObjs settings)
    (scanPairs settings) (scanThr t0 settings)
    (frameRange scene.frame_start scene.frame_end) _
    (by simp) (by simp) (frameRange_pairwise_lt _ _)

/-- Every coarse event's recorded time is its frame divided by fps,
rounded to 6 decimals. -/
theorem coarse_time_eq {vlen : V3 → ℚ} {t0 : ℚ} {scene : Scene}
    {settings : CollisionSoundsSettings} {ev : Event}
    (hev : ev ∈ coarseEvents vlen t0 scene settings) :
    ev.time = rndDec 6 (ev.frame / scanFps scene) := by
  obtain ⟨f, -, hs⟩ := coarse_mem_shape hev
  rw [hs.1, hs.2.1]

theorem bisect_loop_bounds (probe : ℚ → Bool) :
    ∀ (n : ℕ) (lo hi : ℚ), lo < hi →
      lo + (hi - lo) / 2 ^ n ≤ bisect_loop probe n lo hi ∧
      bisect_loop probe n lo hi ≤ hi := by
  intro n
  induction n with
  | zero =>
    intro lo hi _
    constructor
    · rw [pow_zero, div_one]
      unfold bisect_loop
      linarith
    · exact le_refl _
  | succ n ih =>
    intro lo hi h
    have h1 : lo < (lo + hi) / 2 := by linarith
    have h2 : (lo + hi) / 2 < hi := by linarith
    show _ ∧ bisect_loop probe (n + 1) lo hi ≤ hi
    unfold bisect_loop
    by_cases hp : probe ((lo + hi) / 2)
    · rw [if_pos hp]
      obtain ⟨ih1, ih2⟩ := ih lo ((lo + hi) / 2) h1
      constructor
      · have he : (hi - lo) / 2 ^ (n + 1) = ((lo + hi) / 2 - lo) / 2 ^ n := by
          field_simp
          ring
        rw [he]
        exact ih1
      · exact le_trans ih2 (le_of_lt h2)
    · rw [if_neg hp]
      obtain ⟨ih1, ih2⟩ := ih ((lo + hi) / 2) hi h2
      constructor
      · have he : (lo + hi) / 2 + (hi - (lo + hi) / 2) / 2 ^ n
            = (lo + hi) / 2 + (hi - lo) / 2 ^ (n + 1) := by
          field_simp
          ring
        have hmid : lo ≤ (lo + hi) / 2 := by linarith
        have := ih1
        rw [he] at this
        linarith
      · exact ih2

/-- The refined time never exceeds the coarse frame. -/
theorem refine_precise_le (frame_start : ℤ) (allObjs : String → Obj)
    (thr : String × String → ℚ) (substeps : ℕ) (ev : Event) :
    refine_precise frame_start allObjs thr substeps ev
      ≤ ((truncInt ev.frame : ℤ) : ℚ) := by
  unfold refine_precise bisect_onset
  by_cases h : frame_start < truncInt ev.frame
  · rw [if_pos h]
    have hlh : ((truncInt ev.frame - 1 : ℤ) : ℚ) < ((truncInt ev.frame : ℤ) : ℚ) := by
      push_cast
      linarith
    obtain ⟨-, h2⟩ := bisect_loop_bounds _ (bisect_iterations substeps) _ _ hlh
    calc rndDec 4 _ ≤ rndDec 4 ((truncInt ev.frame : ℤ) : ℚ) := rndDec_le_rndDec 4 h2
    _ = ((truncInt ev.frame : ℤ) : ℚ) := rndDec_intCast 4 _
  · rw [if_neg h]

/-- When the coarse frame lies after the scan start, the refined time is
at least the previous frame. -/
theorem refine_precise_ge (frame_start : ℤ) (allObjs : String → Obj)
    (thr : String × String → ℚ) (substeps : ℕ) (ev : Event)
    (h : frame_start < truncInt ev.frame) :
    ((truncInt ev.frame : ℤ) : ℚ) - 1
      ≤ refine_precise frame_start allObjs thr substeps ev := by
  unfold refine_precise bisect_onset
  rw [if_pos h]
  have hlh : ((truncInt ev.frame - 1 : ℤ) : ℚ) < ((truncInt ev.frame : ℤ) : ℚ) := by
    push_cast
    linarith
  obtain ⟨h1, -⟩ := bisect_loop_bounds
    (bisect_probe (allObjs ev.target) (allObjs ev.collider)
      (thr ((allObjs ev.target).name, (allObjs ev.collider).name)))
    (bisect_iterations substeps) _ _ hlh
  have hge : ((truncInt ev.frame - 1 : ℤ) : ℚ)
      ≤ bisect_loop (bisect_probe (allObjs ev.target) (allObjs ev.collider)
          (thr ((allObjs ev.target).name, (allObjs ev.collider).name)))
        (bisect_iterations substeps)
        ((truncInt ev.frame - 1 : ℤ) : ℚ) ((truncInt ev.frame : ℤ) : ℚ) := by
    have hd : 0 ≤ (((truncInt ev.frame : ℤ) : ℚ) - ((truncInt ev.frame - 1 : ℤ) : ℚ))
        / 2 ^ (bisect_iterations substeps) := by
      apply div_nonneg
      · linarith
      · positivity
    linarith
  calc ((truncInt ev.frame : ℤ) : ℚ) - 1
      = rndDec 4 ((truncInt ev.frame - 1 : ℤ) : ℚ) := by
        rw [rndDec_intCast]
        push_cast
        ring
  _ ≤ rndDec 4 _ := rndDec_le_rndDec 4 hge

/-- When the coarse frame is at (or before) the scan start, the refined
time is the coarse frame itself. -/
theorem refine_precise_eq_of_not (frame_start : ℤ) (allObjs : String → Obj)
    (thr : String × String → ℚ) (substeps : ℕ) (ev : Event)
    (h : ¬ frame_start < truncInt ev.frame) :
    refine_precise frame_start allObjs thr substeps ev
      = ((truncInt ev.frame : ℤ) : ℚ) := by
  unfold refine_precise
  rw [if_neg h]

/-- C3 (amended): the coarse pass returns events in non-decreasing time
order — so a scan without precision mode is time-ordered — and the
refinement pass keeps two events in time order whenever their coarse
frames differ; two events sharing a coarse frame may however be returned
out of time order (see the counterexample). -/
theorem claim_C3 (vlen : V3 → ℚ) (t0 : ℚ) (scene : Scene)
    (settings : CollisionSoundsSettings) (hfps : 0 < scanFps scene) :
    (settings.precision_mode = false →
      (detect_collisions vlen t0 scene settings).Pairwise
        (fun a b => a.time ≤ b.time)) ∧
    (coarseEvents vlen t0 scene settings).Pairwise
      (fun a b => a.time ≤ b.time) ∧
    (∀ (i j : ℕ) (evi evj ri rj : Event),
      (coarseEvents vlen t0 scene settings).get? i = some evi →
      (coarseEvents vlen t0 scene settings).get? j = some evj →
      (refine_events vlen scene.frame_start (scanObjs settings)
        (scanThr t0 settings) settings.substeps (scanFps scene)
        (coarseEvents vlen t0 scene settings)).get? i = some ri →
      (refine_events vlen scene.frame_start (scanObjs settings)
        (scanThr t0 settings) settings.substeps (scanFps scene)
        (coarseEvents vlen t0 scene settings)).get? j = some rj →
      truncInt evi.frame < truncInt evj.frame →
      ri.time ≤ rj.time) := by
  have hcoarse : (coarseEvents vlen t0 scene settings).Pairwise
      (fun a b => a.time ≤ b.time) := by
    refine (coarse_pairwise_frame vlen t0 scene settings).imp_of_mem ?_
    intro a b ha hb hab
    rw [coarse_time_eq ha, coarse_time_eq hb]
    exact rndDec_le_rndDec 6 ((div_le_div_iff_of_pos_right hfps).mpr hab)
  refine ⟨?_, hcoarse, ?_⟩
  · intro hprec
    rw [detect_nonprecision vlen t0 scene settings hprec]
    exact hcoarse
  · intro i j evi evj ri rj hgi hgj hri hrj hlt
    unfold refine_events at hri hrj
    rw [List.get?_map, hgi] at hri
    rw [List.get?_map, hgj] at hrj
    simp only [Option.map_some', Option.some.injEq] at hri hrj
    obtain ⟨-, -, -, -, hti⟩ := refine_event_fields vlen scene.frame_start
      (scanObjs settings) (scanThr t0 settings) settings.substeps
      (scanFps scene) evi
    obtain ⟨-, -, -, -, htj⟩ := refine_event_fields vlen scene.frame_start
      (scanObjs settings) (scanThr t0 settings) settings.substeps
      (scanFps scene) evj
    rw [← hri, hti, ← hrj, htj]
    have hle : refine_precise scene.frame_start (scanObjs settings)
        (scanThr t0 settings) settings.substeps evi
        ≤ refine_precise scene.frame_start (scanObjs settings)
          (scanThr t0 settings) settings.substeps evj := by
      have h1 := refine_precise_le scene.frame_start (scanObjs settings)
        (scanThr t0 settings) settings.substeps evi
      by_cases hsj : scene.frame_start < truncInt evj.frame
      · have h2 := refine_precise_ge scene.frame_start (scanObjs settings)
          (scanThr t0 settings) settings.substeps evj hsj
        have hc : ((truncInt evi.frame : ℤ) : ℚ)
            ≤ ((truncInt evj.frame : ℤ) : ℚ) - 1 := by
          have h3 : truncInt evi.frame ≤ truncInt evj.frame - 1 := by omega
          have h4 : ((truncInt evi.frame : ℤ) : ℚ)
              ≤ ((truncInt evj.frame - 1 : ℤ) : ℚ) := by exact_mod_cast h3
          push_cast at h4
          linarith
        linarith
      · rw [refine_precise_eq_of_not scene.frame_start (scanObjs settings)
          (scanThr t0 settings) settings.substeps evj hsj]
        have hc : ((truncInt evi.frame : ℤ) : ℚ)
            < ((truncInt evj.frame : ℤ) : ℚ) := by exact_mod_cast hlt
        linarith
    exact rndDec_le_rndDec 6 ((div_le_div_iff_of_pos_right hfps).mpr hle)

set_option maxHeartbeats 3000000 in
/-- Counterexample to C3 as stated: in precision mode, two events with
the same coarse frame can come back in strictly decreasing time order.
One target and two colliders both first touch at frame 1; the collider
listed first refines to time 1, the one listed second to time 1/2. -/
theorem claim_C3_cx :
    (detect_collisions vlen0 0 sceneP settingsP).map Event.time = [1, 1/2] ∧
    ¬ (detect_collisions vlen0 0 sceneP settingsP).Pairwise
        (fun a b => a.time ≤ b.time) := by
  have hmap : (detect_collisions vlen0 0 sceneP settingsP).map Event.time
      = [1, 1/2] := by
    have hmt : meshObjects settingsP.targets_collection = [objT] := rfl
    have hmc : meshObjects settingsP.colliders_collection = [objC1, objC2] := rfl
    have h1 : all_objects_map [objT] [objC1, objC2] "T" = objT := rfl
    have h2 : all_objects_map [objT] [objC1, objC2] "C1" = objC1 := rfl
    have h3 : all_objects_map [objT] [objC1, objC2] "C2" = objC2 := rfl
    have hth1 : pair_thresholds_map 0 [(objT, objC1), (objT, objC2)] ("T", "C1")
        = 9/100 := by
      have hstep : pair_thresholds_map 0 [(objT, objC1), (objT, objC2)] ("T", "C1")
          = collision_threshold 0 objT objC1 := rfl
      rw [hstep]
      norm_num [collision_threshold, objT, objC1, COLLISION_EPSILON, DEFAULT_MARGIN]
    have hth2 : pair_thresholds_map 0 [(objT, objC1), (objT, objC2)] ("T", "C2")
        = 9/100 := by
      have hstep : pair_thresholds_map 0 [(objT, objC1), (objT, objC2)] ("T", "C2")
          = collision_threshold 0 objT objC2 := rfl
      rw [hstep]
      norm_num [collision_threshold, objT, objC2, COLLISION_EPSILON, DEFAULT_MARGIN]
    have hTname : objT.name = "T" := rfl
    have hC1name : objC1.name = "C1" := rfl
    have hC2name : objC2.name = "C2" := rfl
    have hTpos : ∀ t : ℚ, objT.posAt t = ⟨0, 0, 0⟩ := fun _ => rfl
    have hTmesh : ∀ t : ℚ, objT.meshAt t = [⟨0, 0, 0⟩] := fun _ => rfl
    have hC1pos : ∀ t : ℚ, objC1.posAt t
        = if t < 9/10 then ⟨10, 0, 0⟩ else ⟨0, 0, 0⟩ := fun _ => rfl
    have hC1mesh : ∀ t : ℚ, objC1.meshAt t
        = [if t < 9/10 then ⟨10, 0, 0⟩ else ⟨0, 0, 0⟩] := fun _ => rfl
    have hC2pos : ∀ t : ℚ, objC2.posAt t
        = if t < 1/4 then ⟨10, 0, 0⟩ else ⟨0, 0, 0⟩ := fun _ => rfl
    have hC2mesh : ∀ t : ℚ, objC2.meshAt t
        = [if t < 1/4 then ⟨10, 0, 0⟩ else ⟨0, 0, 0⟩] := fun _ => rfl
    have hne1 : ("C2" = "C1") = False := by simp
    have hne2 : ("C1" = "C2") = False := by simp
    have hne3 : ("T" = "C1") = False := by simp
    have hne4 : ("T" = "C2") = False := by simp
    unfold detect_collisions
    rw [show settingsP.precision_mode = true from rfl,
      show sceneP.frame_start = 0 from rfl, show sceneP.frame_end = 1 from rfl,
      show settingsP.substeps = 2 from rfl, show sceneP.fps_num = 1 from rfl,
      show sceneP.fps_base = 1 from rfl, hmt, hmc]
    norm_num [pass1, scan_frame, pair_step, mk_event, refine_events, refine_event,
      refine_precise, bisect_onset, bisect_loop, bisect_probe, bisect_iterations,
      surfaces_within_distance, findNearest, bvh_from_object, contact_position,
      frameRange, List.range_succ, List.range_zero, Int.toNat, pairsOf, vlen0,
      distSq, V3.normSq, V3.sub, V3.smul, V3.zero, round_vec, rndDec, rndInt,
      truncInt, v3OfList, Nat.clog, keyOf, h1, h2, h3, hth1, hth2, hTname,
      hC1name, hC2name, hTpos, hTmesh, hC1pos, hC1mesh, hC2pos, hC2mesh,
      hne1, hne2, hne3, hne4]
  refine ⟨hmap, fun hpw => ?_⟩
  have hmapped : ((detect_collisions vlen0 0 sceneP settingsP).map
      Event.time).Pairwise (fun a b => a ≤ b) :=
    List.Pairwise.map Event.time (fun _ _ h => h) hpw
  rw [hmap] at hmapped
  have h12 : (1 : ℚ) ≤ 1/2 :=
    List.rel_of_pairwise_cons hmapped (List.mem_singleton.mpr rfl)
  norm_num at h12

/-- Witness for C3 at the basic scene: fps is positive, and the theorem
yields the ordering guarantees there. -/
theorem claim_C3_witness :
    0 < scanFps sceneW ∧
    ((settingsW.precision_mode = false →
      (detect_collisions vlen0 0 sceneW settingsW).Pairwise
        (fun a b => a.time ≤ b.time)) ∧
    (coarseEvents vlen0 0 sceneW settingsW).Pairwise
      (fun a b => a.time ≤ b.time) ∧
    (∀ (i j : ℕ) (evi evj ri rj : Event),
      (coarseEvents vlen0 0 sceneW settingsW).get? i = some evi →
      (coarseEvents vlen0 0 sceneW settingsW).get? j = some evj →
      (refine_events vlen0 sceneW.frame_start (scanObjs settingsW)
        (scanThr 0 settingsW) settingsW.substeps (scanFps sceneW)
        (coarseEvents vlen0 0 sceneW settingsW)).get? i = some ri →
      (refine_events vlen0 sceneW.frame_start (scanObjs settingsW)
        (scanThr 0 settingsW) settingsW.substeps (scanFps sceneW)
        (coarseEvents vlen0 0 sceneW settingsW)).get? j = some rj →
      truncInt evi.frame < truncInt evj.frame →
      ri.time ≤ rj.time)) :=
  ⟨by norm_num [scanFps, sceneW],
   claim_C3 vlen0 0 sceneW settingsW (by norm_num [scanFps, sceneW])⟩

/-- C4 (amended): at a sampled frame where either object of a pair has no
collidable geometry, the scanner skips the pair's contact test: the
pair's overlap state is left unchanged (it is not reset to "not
touching"), and no event is emitted for the pair at that frame. -/
theorem claim_C4 (vlen : V3 → ℚ) (fps : ℚ) (allObjs : String → Obj)
    (pairs : List (Obj × Obj)) (thr : String × String → ℚ) (st : ScanSt)
    (f : ℤ) (t c : Obj) (hmem : (t, c) ∈ pairs)
    (hnone : bvh_from_object (allObjs t.name) (f : ℚ) = none ∨
      bvh_from_object (allObjs c.name) (f : ℚ) = none) :
    (scan_frame vlen fps allObjs pairs thr st f).was_in_contact (t.name, c.name)
        = st.was_in_contact (t.name, c.name) ∧
    ((scan_frame vlen fps allObjs pairs thr st f).collision_events).countP
        (evKeyPred (t.name, c.name))
      = st.collision_events.countP (evKeyPred (t.name, c.name)) := by
  have hic : inContactAt allObjs thr (t.name, c.name) f = none := by
    unfold inContactAt
    cases h1 : bvh_from_object (allObjs t.name) (f : ℚ) with
    | none => rfl
    | some bt =>
      cases h2 : bvh_from_object (allObjs c.name) (f : ℚ) with
      | none => rfl
      | some bc =>
        rcases hnone with h | h
        · rw [h1] at h; exact Option.noConfusion h
        · rw [h2] at h; exact Option.noConfusion h
  constructor
  · rw [scan_frame_was_key (k := (t.name, c.name)) hmem rfl, hic]
    rfl
  · rw [scan_frame_countP_key (k := (t.name, c.name)) hmem rfl, hic]
    simp

/-- Witness for C4 from the vanishing-mesh scene at frame 2 with the
initial scan state. -/
theorem claim_C4_witness :
    (objT, objC4) ∈ scanPairs settingsC4 ∧
    bvh_from_object (scanObjs settingsC4 objC4.name) ((2 : ℤ) : ℚ) = none ∧
    ((scan_frame vlen0 24 (scanObjs settingsC4) (scanPairs settingsC4)
        (scanThr 0 settingsC4)
        ⟨[], fun _ => false, none⟩ 2).was_in_contact (objT.name, objC4.name)
      = (⟨[], fun _ => false, none⟩ : ScanSt).was_in_contact
          (objT.name, objC4.name) ∧
    ((scan_frame vlen0 24 (scanObjs settingsC4) (scanPairs settingsC4)
        (scanThr 0 settingsC4)
        ⟨[], fun _ => false, none⟩ 2).collision_events).countP
        (evKeyPred (objT.name, objC4.name))
      = (⟨[], fun _ => false, none⟩ : ScanSt).collision_events.countP
          (evKeyPred (objT.name, objC4.name))) := by
  have hps : scanPairs settingsC4 = [(objT, objC4)] := rfl
  have hp : (objT, objC4) ∈ scanPairs settingsC4 := by
    rw [hps]
    exact List.mem_singleton.mpr rfl
  have hbn : bvh_from_object (scanObjs settingsC4 objC4.name) ((2 : ℤ) : ℚ)
      = none := by
    have ho : scanObjs settingsC4 objC4.name = objC4 := rfl
    rw [ho]
    unfold bvh_from_object
    norm_num [objC4]
  exact ⟨hp, hbn,
    claim_C4 vlen0 24 (scanObjs settingsC4) (scanPairs settingsC4)
      (scanThr 0 settingsC4) ⟨[], fun _ => false, none⟩ 2 objT objC4 hp
      (Or.inr hbn)⟩

/-- The vanishing-mesh scene's contact observations: touching at frames
1 and 3, skipped (no geometry) at frame 2. -/
theorem sceneC4_contacts :
    inContactAt (scanObjs settingsC4) (scanThr 0 settingsC4)
      (objT.name, objC4.name) 1 = some true ∧
    inContactAt (scanObjs settingsC4) (scanThr 0 settingsC4)
      (objT.name, objC4.name) 2 = none ∧
    inContactAt (scanObjs settingsC4) (scanThr 0 settingsC4)
      (objT.name, objC4.name) 3 = some true := by
  have hoT : scanObjs settingsC4 "T" = objT := rfl
  have hoC : scanObjs settingsC4 "C" = objC4 := rfl
  have hthr : scanThr 0 settingsC4 ("T", "C") = 9 / 100 := by
    have hstep : scanThr 0 settingsC4 ("T", "C")
        = collision_threshold 0 objT objC4 := rfl
    rw [hstep]
    norm_num [collision_threshold, objT, objC4, COLLISION_EPSILON, DEFAULT_MARGIN]
  refine ⟨?_, ?_, ?_⟩ <;>
    · unfold inContactAt
      norm_num [hoT, hoC, hthr, bvh_from_object, surfaces_within_distance,
        findNearest, objT, objC4, distSq, V3.normSq, V3.sub]

/-- Counterexample to C4 as stated: the collider has no geometry at
frame 2, yet after that frame the pair's overlap state is still
TOUCHING (it is carried over, not reset to NOT_TOUCHING), and the full
three-frame scan reports a single event even though the claim's
transition rule would produce a second rising edge at frame 3. -/
theorem claim_C4_cx :
    bvh_from_object (scanObjs settingsC4 "C") ((2 : ℤ) : ℚ) = none ∧
    (pass1 vlen0 (scanFps sceneC4) (scanObjs settingsC4)
      (scanPairs settingsC4) (scanThr 0 settingsC4)
      (frameRange 1 2)).was_in_contact ("T", "C") = true ∧
    (detect_collisions vlen0 0 sceneC4 settingsC4).length = 1 := by
  obtain ⟨hic1, hic2, hic3⟩ := sceneC4_contacts
  have hic1' : inContactAt (scanObjs settingsC4) (scanThr 0 settingsC4)
      ("T", "C") 1 = some true := hic1
  have hic2' : inContactAt (scanObjs settingsC4) (scanThr 0 settingsC4)
      ("T", "C") 2 = none := hic2
  have hic3' : inContactAt (scanObjs settingsC4) (scanThr 0 settingsC4)
      ("T", "C") 3 = some true := hic3
  have hps : scanPairs settingsC4 = [(objT, objC4)] := rfl
  have hp : (objT, objC4) ∈ scanPairs settingsC4 := by
    rw [hps]
    exact List.mem_singleton.mpr rfl
  have hbn : bvh_from_object (scanObjs settingsC4 "C") ((2 : ℤ) : ℚ) = none := by
    have ho : scanObjs settingsC4 "C" = objC4 := rfl
    rw [ho]
    unfold bvh_from_object
    norm_num [objC4]
  refine ⟨hbn, ?_, ?_⟩
  · have hfr : frameRange 1 2 = [1, 2] := by
      have h1 : ((2 : ℤ) + 1 - 1).toNat = 2 := by omega
      unfold frameRange
      rw [h1]
      rfl
    unfold pass1
    rw [hfr, pass1_foldl_was vlen0 (scanFps sceneC4) (scanObjs settingsC4)
      (scanPairs settingsC4) (scanThr 0 settingsC4) [1, 2] _ ("T", "C")
      (objT, objC4) hp rfl]
    rw [List.foldl_cons, List.foldl_cons, List.foldl_nil, hic1', hic2']
    rfl
  · have hdet : detect_collisions vlen0 0 sceneC4 settingsC4
        = coarseEvents vlen0 0 sceneC4 settingsC4 :=
      detect_nonprecision vlen0 0 sceneC4 settingsC4 rfl
    rw [hdet]
    have hall : ∀ ev ∈ coarseEvents vlen0 0 sceneC4 settingsC4,
        evKeyPred ("T", "C") ev = true := by
      intro ev hev
      obtain ⟨f, -, hs⟩ := coarse_mem_shape hev
      obtain ⟨-, -, pr, hpr, ht, hc, -⟩ := hs
      rw [hps] at hpr
      rw [List.mem_singleton] at hpr
      subst hpr
      unfold evKeyPred
      rw [ht, hc]
      exact decide_eq_true ⟨rfl, rfl⟩
    have hlen : (coarseEvents vlen0 0 sceneC4 settingsC4).countP
        (evKeyPred ("T", "C"))
        = (coarseEvents vlen0 0 sceneC4 settingsC4).length :=
      List.countP_eq_length.mpr hall
    rw [← hlen]
    have hfr : frameRange sceneC4.frame_start sceneC4.frame_end = [1, 2, 3] := by
      have h1 : ((3 : ℤ) + 1 - 1).toNat = 3 := by omega
      unfold frameRange
      rw [show sceneC4.frame_start = (1 : ℤ) from rfl,
        show sceneC4.frame_end = (3 : ℤ) from rfl, h1]
      rfl
    unfold coarseEvents pass1
    rw [hfr]
    rw [List.foldl_cons, List.foldl_cons, List.foldl_cons, List.foldl_nil]
    rw [scan_frame_countP_key (k := ("T", "C")) hp rfl,
      scan_frame_countP_key (k := ("T", "C")) hp rfl,
      scan_frame_countP_key (k := ("T", "C")) hp rfl]
    rw [scan_frame_was_key (k := ("T", "C")) hp rfl,
      scan_frame_was_key (k := ("T", "C")) hp rfl,
      scan_frame_was_key (k := ("T", "C")) hp rfl]
    rw [hic1', hic2', hic3']
    norm_num

/-- C5: whenever `detect_collisions` returns a non-empty event list,
every event dict it produces carries the keys "target" and "collider"
and carries neither "active" nor "passive", so the operator's
result-storing loop — which subscripts e["active"] and e["passive"] —
raises a KeyError on the first event. -/
theorem claim_C5 (vlen : V3 → ℚ) (t0 : ℚ) (scene : Scene)
    (settings : CollisionSoundsSettings)
    (hne : detect_collisions vlen t0 scene settings ≠ []) :
    (∀ ev ∈ detect_collisions vlen t0 scene settings,
      dictGet (Event.toDict ev) "target" = some (.str ev.target) ∧
      dictGet (Event.toDict ev) "collider" = some (.str ev.collider) ∧
      dictGet (Event.toDict ev) "active" = none ∧
      dictGet (Event.toDict ev) "passive" = none) ∧
    store_events ((detect_collisions vlen t0 scene settings).map Event.toDict)
      = Except.error "KeyError: active" := by
  refine ⟨fun ev _ => ⟨rfl, rfl, rfl, rfl⟩, ?_⟩
  cases hcase : detect_collisions vlen t0 scene settings with
  | nil => exact absurd hcase hne
  | cons e rest => rfl

/-- Witness for C5: the basic one-event scene yields a non-empty result,
and storing it errors with KeyError on "active". -/
theorem claim_C5_witness :
    detect_collisions vlen0 0 sceneW settingsW ≠ [] ∧
    store_events ((detect_collisions vlen0 0 sceneW settingsW).map
        Event.toDict)
      = Except.error "KeyError: active" := by
  have hps : scanPairs settingsW = [(objT, objC)] := rfl
  have hp : (objT, objC) ∈ scanPairs settingsW := by
    rw [hps]
    exact List.mem_singleton.mpr rfl
  have hcount : (coarseEvents vlen0 0 sceneW settingsW).countP
      (evKeyFramePred (objT.name, objC.name) 1) = 1 := by
    rw [coarse_countP_eq vlen0 0 sceneW settingsW objT objC hp 1
      (by norm_num [sceneW]) (by norm_num [sceneW])]
    have hwas : wasAfter (scanObjs settingsW) (scanThr 0 settingsW)
        (objT.name, objC.name) (frameRange sceneW.frame_start (1 - 1))
        = false := by
      have hfr : frameRange sceneW.frame_start (1 - 1) = [0] := by
        rw [show sceneW.frame_start = (0 : ℤ) from rfl,
          show (1 : ℤ) - 1 = 0 from rfl, frameRange_self]
      rw [hfr]
      unfold wasAfter
      rw [List.foldl_cons, List.foldl_nil, sceneW_contact_0]
      rfl
    rw [if_pos ⟨sceneW_contact_1, hwas⟩]
  have hne : detect_collisions vlen0 0 sceneW settingsW ≠ [] := by
    intro hempty
    rw [detect_nonprecision vlen0 0 sceneW settingsW rfl] at hempty
    rw [hempty] at hcount
    simp at hcount
  exact ⟨hne, (claim_C5 vlen0 0 sceneW settingsW hne).2⟩

/-!  Lemmas about the policy-parametrised scan, for claim C6. -/

theorem detect_with_policy_nonprec (policy : ContactPolicy) (vlen : V3 → ℚ)
    (t0 : ℚ) (scene : Scene) (settings : CollisionSoundsSettings)
    (h : settings.precision_mode = false) :
    detect_with_policy policy vlen t0 scene settings
      = ((frameRange scene.frame_start scene.frame_end).foldl
          (scan_frame_with_policy policy vlen (scanFps scene)
            (scanObjs settings) (scanPairs settings) (scanThr t0 settings))
          ⟨[], fun _ => false, none⟩).collision_events := by
  simp only [detect_with_policy, scanFps, scanObjs, scanPairs, scanThr,
    scanTargets, scanColliders, h]
  simp

theorem pair_step_with_policy_ne (policy : ContactPolicy) (vlen : V3 → ℚ)
    (fps : ℚ) (frame : ℤ) (curPos curVel : String → V3)
    (bvhc : String → Option (List V3)) (thr : String × String → ℚ)
    (acc : List Event × (String × String → Bool)) (pr : Obj × Obj)
    (h : acc.1 ≠ []) :
    (pair_step_with_policy policy vlen fps frame curPos curVel bvhc thr
      acc pr).1 ≠ [] := by
  unfold pair_step_with_policy
  cases h1 : bvhc pr.1.name with
  | none => exact h
  | some ba =>
    cases h2 : bvhc pr.2.name with
    | none => exact h
    | some bb =>
      dsimp only
      split_ifs
      · simp
      · exact h

theorem foldl_pair_step_with_policy_ne (policy : ContactPolicy)
    (vlen : V3 → ℚ) (fps : ℚ) (frame : ℤ) (curPos curVel : String → V3)
    (bvhc : String → Option (List V3)) (thr : String × String → ℚ)
    (pairs : List (Obj × Obj))
    (acc : List Event × (String × String → Bool)) (h : acc.1 ≠ []) :
    (pairs.foldl
      (pair_step_with_policy policy vlen fps frame curPos curVel bvhc thr)
      acc).1 ≠ [] := by
  induction pairs generalizing acc with
  | nil => exact h
  | cons p ps ih =>
    exact ih _ (pair_step_with_policy_ne policy vlen fps frame curPos curVel
      bvhc thr acc p h)

theorem scan_frame_with_policy_ne (policy : ContactPolicy) (vlen : V3 → ℚ)
    (fps : ℚ) (allObjs : String → Obj) (pairs : List (Obj × Obj))
    (thr : String × String → ℚ) (st : ScanSt) (f : ℤ)
    (h : st.collision_events ≠ []) :
    (scan_frame_with_policy policy vlen fps allObjs pairs thr st f).collision_events
      ≠ [] := by
  unfold scan_frame_with_policy
  exact foldl_pair_step_with_policy_ne policy vlen fps f _ _ _ thr pairs
    (st.collision_events, st.was_in_contact) h

theorem pair_step_with_policy_emits (policy : ContactPolicy) (vlen : V3 → ℚ)
    (fps : ℚ) (frame : ℤ) (curPos curVel : String → V3)
    (bvhc : String → Option (List V3)) (thr : String × String → ℚ)
    (acc : List Event × (String × String → Bool)) (pr : Obj × Obj)
    (ba bb : List V3)
    (h1 : bvhc pr.1.name = some ba) (h2 : bvhc pr.2.name = some bb)
    (hc : specInContact policy ba bb (curPos pr.1.name) (curPos pr.2.name)
      (thr (pr.1.name, pr.2.name)) = true)
    (hw : acc.2 (pr.1.name, pr.2.name) = false) :
    (pair_step_with_policy policy vlen fps frame curPos curVel bvhc thr
        acc pr).1
      = acc.1 ++ [mk_event vlen fps frame curPos curVel bb
          (pr.1.name, pr.2.name)] := by
  unfold pair_step_with_policy
  rw [h1, h2]
  dsimp only
  rw [hc, hw]
  simp

theorem scan_frame_with_policy_eq (policy : ContactPolicy) (vlen : V3 → ℚ)
    (fps : ℚ) (allObjs : String → Obj) (pairs : List (Obj × Obj))
    (thr : String × String → ℚ) (st : ScanSt) (f : ℤ) :
    scan_frame_with_policy policy vlen fps allObjs pairs thr st f
      = { collision_events :=
            (pairs.foldl (pair_step_with_policy policy vlen fps f
              (framePos allObjs f) (frameVel fps allObjs f st.prev_positions)
              (frameBvh allObjs f) thr)
              (st.collision_events, st.was_in_contact)).1
          was_in_contact :=
            (pairs.foldl (pair_step_with_policy policy vlen fps f
              (framePos allObjs f) (frameVel fps allObjs f st.prev_positions)
              (frameBvh allObjs f) thr)
              (st.collision_events, st.was_in_contact)).2
          prev_positions := some (framePos allObjs f) } := rfl

/-- The C6 scene's contact observations: the surface-distance test is
false at both sampled frames (the two-bounce gap is 3). -/
theorem sceneC6_contacts :
    inContactAt (scanObjs settingsC6) (scanThr 0 settingsC6)
      ("A", "B") 0 = some false ∧
    inContactAt (scanObjs settingsC6) (scanThr 0 settingsC6)
      ("A", "B") 1 = some false := by
  have hthr : scanThr 0 settingsC6 ("A", "B") = 9 / 100 := by
    have hstep : scanThr 0 settingsC6 ("A", "B")
        = collision_threshold 0 objA6 objB6 := rfl
    rw [hstep]
    norm_num [collision_threshold, objA6, objB6, COLLISION_EPSILON,
      DEFAULT_MARGIN]
  have hbA : ∀ f : ℚ, bvh_from_object (scanObjs settingsC6 "A") f
      = some [⟨0, 0, 0⟩, ⟨5, 5, 5⟩] := fun _ => rfl
  have hbB : ∀ f : ℚ, bvh_from_object (scanObjs settingsC6 "B") f
      = some [⟨5, 5, 5⟩, ⟨3, 0, 0⟩] := fun _ => rfl
  have hpA : ∀ f : ℚ, (scanObjs settingsC6 "A").posAt f = ⟨0, 0, 0⟩ :=
    fun _ => rfl
  have hpB : ∀ f : ℚ, (scanObjs settingsC6 "B").posAt f = ⟨3, 0, 0⟩ :=
    fun _ => rfl
  refine ⟨?_, ?_⟩ <;>
    · unfold inContactAt
      norm_num [hbA, hbB, hpA, hpB, hthr, surfaces_within_distance,
        findNearest, distSq, V3.normSq, V3.sub]

set_option maxHeartbeats 1000000 in
/-- C6 (amended): the source exposes no contact-policy selector — the
settings carry only collections, precision mode, substeps and export
fields — and for every configuration the scan behaves exactly as the
SURFACE_DISTANCE policy of the policy-parametrised model; the OVERLAP
policy is not reachable through any configuration. -/
theorem claim_C6 (vlen : V3 → ℚ) (t0 : ℚ) (scene : Scene)
    (settings : CollisionSoundsSettings) :
    detect_collisions vlen t0 scene settings
      = detect_with_policy ContactPolicy.SURFACE_DISTANCE vlen t0 scene
          settings := rfl

/-- Witness for C6 at a concrete configuration. -/
theorem claim_C6_witness :
    detect_collisions vlen0 0 sceneC6 settingsC6
      = detect_with_policy ContactPolicy.SURFACE_DISTANCE vlen0 0 sceneC6
          settingsC6 :=
  claim_C6 vlen0 0 sceneC6 settingsC6

/-- Counterexample to C6 as stated: on a scene whose meshes share a
point, the spec's OVERLAP policy reports contact while the source's
surface-distance test does not; the scan returns no event, yet the
OVERLAP-policy scan returns some — so no configuration makes the scan
follow the OVERLAP policy. -/
theorem claim_C6_cx :
    specInContact ContactPolicy.OVERLAP (objA6.meshAt 0) (objB6.meshAt 0)
      (objA6.posAt 0) (objB6.posAt 0) (9 / 100) = true ∧
    specInContact ContactPolicy.SURFACE_DISTANCE (objA6.meshAt 0)
      (objB6.meshAt 0) (objA6.posAt 0) (objB6.posAt 0) (9 / 100) = false ∧
    detect_collisions vlen0 0 sceneC6 settingsC6 = [] ∧
    detect_with_policy ContactPolicy.OVERLAP vlen0 0 sceneC6 settingsC6
      ≠ [] := by
  obtain ⟨hic0, hic1⟩ := sceneC6_contacts
  have hps : scanPairs settingsC6 = [(objA6, objB6)] := rfl
  have hp : (objA6, objB6) ∈ scanPairs settingsC6 := by
    rw [hps]
    exact List.mem_singleton.mpr rfl
  have hfr : frameRange sceneC6.frame_start sceneC6.frame_end = [0, 1] := by
    have h1 : ((1 : ℤ) + 1 - 0).toNat = 2 := by omega
    unfold frameRange
    rw [show sceneC6.frame_start = (0 : ℤ) from rfl,
      show sceneC6.frame_end = (1 : ℤ) from rfl, h1]
    rfl
  have hov : specInContact ContactPolicy.OVERLAP
      [⟨0, 0, 0⟩, ⟨5, 5, 5⟩] [⟨5, 5, 5⟩, ⟨3, 0, 0⟩]
      (⟨0, 0, 0⟩ : V3) (⟨3, 0, 0⟩ : V3) (9 / 100) = true := by
    norm_num [specInContact, bvhOverlapPairs, distSq, V3.normSq, V3.sub,
      COLLISION_EPSILON, List.flatMap_cons, List.flatMap_nil,
      List.filter, List.isEmpty]
  refine ⟨?_, ?_, ?_, ?_⟩
  · exact hov
  · norm_num [specInContact, surfaces_within_distance, findNearest,
      objA6, objB6, distSq, V3.normSq, V3.sub]
  · have hdet : detect_collisions vlen0 0 sceneC6 settingsC6
        = coarseEvents vlen0 0 sceneC6 settingsC6 :=
      detect_nonprecision vlen0 0 sceneC6 settingsC6 rfl
    rw [hdet]
    have hall : ∀ ev ∈ coarseEvents vlen0 0 sceneC6 settingsC6,
        evKeyPred ("A", "B") ev = true := by
      intro ev hev
      obtain ⟨f, -, hs⟩ := coarse_mem_shape hev
      obtain ⟨-, -, pr, hpr, ht, hc, -⟩ := hs
      rw [hps] at hpr
      rw [List.mem_singleton] at hpr
      subst hpr
      unfold evKeyPred
      rw [ht, hc]
      exact decide_eq_true ⟨rfl, rfl⟩
    have hlen : (coarseEvents vlen0 0 sceneC6 settingsC6).countP
        (evKeyPred ("A", "B"))
        = (coarseEvents vlen0 0 sceneC6 settingsC6).length :=
      List.countP_eq_length.mpr hall
    have hzero : (coarseEvents vlen0 0 sceneC6 settingsC6).length = 0 := by
      rw [← hlen]
      unfold coarseEvents pass1
      rw [hfr]
      rw [List.foldl_cons, List.foldl_cons, List.foldl_nil]
      rw [scan_frame_countP_key (k := ("A", "B")) hp rfl,
        scan_frame_countP_key (k := ("A", "B")) hp rfl]
      rw [scan_frame_was_key (k := ("A", "B")) hp rfl]
      rw [hic0, hic1]
      norm_num
    exact List.length_eq_zero.mp hzero
  · have hpol : detect_with_policy ContactPolicy.OVERLAP vlen0 0 sceneC6
        settingsC6
        = ((frameRange sceneC6.frame_start sceneC6.frame_end).foldl
            (scan_frame_with_policy ContactPolicy.OVERLAP vlen0
              (scanFps sceneC6) (scanObjs settingsC6) (scanPairs settingsC6)
              (scanThr 0 settingsC6))
            ⟨[], fun _ => false, none⟩).collision_events :=
      detect_with_policy_nonprec ContactPolicy.OVERLAP vlen0 0 sceneC6
        settingsC6 rfl
    rw [hpol, hfr, List.foldl_cons, List.foldl_cons, List.foldl_nil]
    refine scan_frame_with_policy_ne ContactPolicy.OVERLAP vlen0
      (scanFps sceneC6) (scanObjs settingsC6) (scanPairs settingsC6)
      (scanThr 0 settingsC6) _ 1 ?_
    rw [scan_frame_with_policy_eq]
    dsimp only
    rw [hps, List.foldl_cons, List.foldl_nil]
    have hthr : scanThr 0 settingsC6 (objA6.name, objB6.name) = 9 / 100 := by
      have hstep : scanThr 0 settingsC6 ("A", "B")
          = collision_threshold 0 objA6 objB6 := rfl
      rw [show (objA6.name, objB6.name) = ("A", "B") from rfl, hstep]
      norm_num [collision_threshold, objA6, objB6, COLLISION_EPSILON,
        DEFAULT_MARGIN]
    have hc : specInContact ContactPolicy.OVERLAP
        [⟨0, 0, 0⟩, ⟨5, 5, 5⟩] [⟨5, 5, 5⟩, ⟨3, 0, 0⟩]
        (framePos (scanObjs settingsC6) 0 (objA6, objB6).1.name)
        (framePos (scanObjs settingsC6) 0 (objA6, objB6).2.name)
        (scanThr 0 settingsC6 ((objA6, objB6).1.name, (objA6, objB6).2.name))
        = true := by
      rw [show framePos (scanObjs settingsC6) 0 (objA6, objB6).1.name
          = (⟨0, 0, 0⟩ : V3) from rfl,
        show framePos (scanObjs settingsC6) 0 (objA6, objB6).2.name
          = (⟨3, 0, 0⟩ : V3) from rfl, hthr]
      exact hov
    rw [pair_step_with_policy_emits ContactPolicy.OVERLAP vlen0
      (scanFps sceneC6) 0 (framePos (scanObjs settingsC6) 0)
      (frameVel (scanFps sceneC6) (scanObjs settingsC6) 0 none)
      (frameBvh (scanObjs settingsC6) 0) (scanThr 0 settingsC6)
      ([], fun _ => false) (objA6, objB6)
      [⟨0, 0, 0⟩, ⟨5, 5, 5⟩] [⟨5, 5, 5⟩, ⟨3, 0, 0⟩] rfl rfl hc rfl]
    simp

/-!  Claim C7: the bisection's refined onset lies in (F-1, F]. -/

theorem bisect_iterations_le_six {substeps : ℕ} (h : substeps ≤ 64) :
    bisect_iterations substeps ≤ 6 := by
  have hc : Nat.clog 2 substeps ≤ Nat.clog 2 64 := Nat.clog_mono_right 2 h
  have h64 : Nat.clog 2 64 = 6 := by norm_num [Nat.clog]
  unfold bisect_iterations
  exact Nat.max_le.mpr ⟨by norm_num, by omega⟩

/-- C7: for every coarse onset whose frame F lies strictly after the
scan's first frame, and every substeps value in the configurable range
2..64, the refined onset time (the bisection result, rounded to 4
decimal places) satisfies F - 1 < t ≤ F. -/
theorem claim_C7 (frame_start : ℤ) (allObjs : String → Obj)
    (thr : String × String → ℚ) (substeps : ℕ) (ev : Event)
    (hs : substepsValid substeps)
    (hgt : frame_start < truncInt ev.frame) :
    ((truncInt ev.frame : ℤ) : ℚ) - 1
        < refine_precise frame_start allObjs thr substeps ev ∧
    refine_precise frame_start allObjs thr substeps ev
        ≤ ((truncInt ev.frame : ℤ) : ℚ) := by
  refine ⟨?_, refine_precise_le frame_start allObjs thr substeps ev⟩
  unfold refine_precise bisect_onset
  rw [if_pos hgt]
  have hlh : ((truncInt ev.frame - 1 : ℤ) : ℚ)
      < ((truncInt ev.frame : ℤ) : ℚ) := by
    push_cast
    linarith
  obtain ⟨h1, -⟩ := bisect_loop_bounds
    (bisect_probe (allObjs ev.target) (allObjs ev.collider)
      (thr ((allObjs ev.target).name, (allObjs ev.collider).name)))
    (bisect_iterations substeps) _ _ hlh
  have hn : bisect_iterations substeps ≤ 6 := bisect_iterations_le_six hs.2
  have hpow : (2 : ℚ) ^ bisect_iterations substeps ≤ 64 := by
    calc (2 : ℚ) ^ bisect_iterations substeps
        ≤ 2 ^ 6 := pow_le_pow_right (by norm_num) hn
    _ = 64 := by norm_num
  have hpos : (0 : ℚ) < 2 ^ bisect_iterations substeps := by positivity
  have hgap : (1 : ℚ) / 64
      ≤ (((truncInt ev.frame : ℤ) : ℚ) - ((truncInt ev.frame - 1 : ℤ) : ℚ))
        / 2 ^ bisect_iterations substeps := by
    have hone : ((truncInt ev.frame : ℤ) : ℚ)
        - ((truncInt ev.frame - 1 : ℤ) : ℚ) = 1 := by
      push_cast
      ring
    rw [hone]
    exact one_div_le_one_div_of_le hpos hpow
  have h3 : ((truncInt ev.frame - 1 : ℤ) : ℚ) + 1 / 64
      ≤ bisect_loop
          (bisect_probe (allObjs ev.target) (allObjs ev.collider)
            (thr ((allObjs ev.target).name, (allObjs ev.collider).name)))
          (bisect_iterations substeps)
          ((truncInt ev.frame - 1 : ℤ) : ℚ) ((truncInt ev.frame : ℤ) : ℚ) := by
    linarith
  have h4 := intCast_lt_rndDec4 (truncInt ev.frame - 1) h3
  have hcast : ((truncInt ev.frame - 1 : ℤ) : ℚ)
      = ((truncInt ev.frame : ℤ) : ℚ) - 1 := by
    push_cast
    ring
  rw [← hcast]
  exact h4

/-- A concrete coarse event for the C7 witness. -/
def ev7 : Event := ⟨1, 1, "T", "C1", [0, 0, 0], [0, 0, 0], [0, 0, 0], 0⟩

/-- Witness for C7 at a concrete event and substeps value. -/
theorem claim_C7_witness :
    substepsValid 8 ∧ (0 : ℤ) < truncInt ev7.frame ∧
    (((truncInt ev7.frame : ℤ) : ℚ) - 1
        < refine_precise 0 (scanObjs settingsP) (scanThr 0 settingsP) 8 ev7 ∧
    refine_precise 0 (scanObjs settingsP) (scanThr 0 settingsP) 8 ev7
        ≤ ((truncInt ev7.frame : ℤ) : ℚ)) := by
  have hs : substepsValid 8 := ⟨by norm_num, by norm_num⟩
  have hgt : (0 : ℤ) < truncInt ev7.frame := by
    norm_num [ev7, truncInt]
  exact ⟨hs, hgt,
    claim_C7 0 (scanObjs settingsP) (scanThr 0 settingsP) 8 ev7 hs hgt⟩

/-!  Claim C8: the pair threshold formula, read once before the scan. -/

/-- The margin `_collision_threshold` reads for one object at the ambient
time: the rigid-body margin when present, the default otherwise. -/
def marginAt (t0 : ℚ) (rb : Option (ℚ → ℚ)) : ℚ :=
  match rb with
  | some m => m t0
  | none => DEFAULT_MARGIN

theorem collision_threshold_eq (t0 : ℚ) (a b : Obj) :
    collision_threshold t0 a b
      = marginAt t0 a.rigid_body + marginAt t0 b.rigid_body
        + COLLISION_EPSILON := rfl

/-- An object with its rigid-body margin replaced (name, type, motion and
geometry untouched). -/
def withMargin (o : Obj) (m : Option (ℚ → ℚ)) : Obj :=
  { o with rigid_body := m }

/-- Replace every object's margin according to `μ`. -/
def remapObj (μ : Obj → Option (ℚ → ℚ)) (o : Obj) : Obj := withMargin o (μ o)

/-- The settings with every scanned object's margin remapped by `μ`. -/
def remapSettings (μ : Obj → Option (ℚ → ℚ))
    (s : CollisionSoundsSettings) : CollisionSoundsSettings :=
  { s with
    targets_collection := s.targets_collection.map (remapObj μ)
    colliders_collection := s.colliders_collection.map (remapObj μ) }

/-- Forget an object's margin, keeping everything the scan samples. -/
def stripMargin (o : Obj) : Obj := { o with rigid_body := none }

theorem meshObjects_map (μ : Obj → Option (ℚ → ℚ)) (l : List Obj) :
    meshObjects (l.map (remapObj μ)) = (meshObjects l).map (remapObj μ) := by
  unfold meshObjects
  rw [List.filter_map]
  rfl

theorem pairsOf_map (μ : Obj → Option (ℚ → ℚ)) (ts cs : List Obj) :
    pairsOf (ts.map (remapObj μ)) (cs.map (remapObj μ))
      = (pairsOf ts cs).map (Prod.map (remapObj μ) (remapObj μ)) := by
  unfold pairsOf
  induction ts with
  | nil => rfl
  | cons t ts ih =>
    rw [List.map_cons, List.flatMap_cons, List.flatMap_cons, List.map_append,
      ih]
    congr 1
    rw [List.map_map, List.map_map]
    rfl

theorem all_objects_map_strip (μ : Obj → Option (ℚ → ℚ)) (ts cs : List Obj)
    (n : String) :
    stripMargin (all_objects_map (ts.map (remapObj μ)) (cs.map (remapObj μ)) n)
      = stripMargin (all_objects_map ts cs n) := by
  unfold all_objects_map
  rw [← List.map_append, List.reverse_map, List.find?_map]
  rw [show ((ts ++ cs).reverse.find?
      ((fun o => o.name == n) ∘ remapObj μ))
      = (ts ++ cs).reverse.find? (fun o => o.name == n) from rfl]
  cases h : (ts ++ cs).reverse.find? (fun o => o.name == n) with
  | none => rfl
  | some o => rfl

theorem scanObjs_remap_strip (μ : Obj → Option (ℚ → ℚ))
    (settings : CollisionSoundsSettings) (n : String) :
    stripMargin (scanObjs (remapSettings μ settings) n)
      = stripMargin (scanObjs settings n) := by
  unfold scanObjs scanTargets scanColliders
  rw [show (remapSettings μ settings).targets_collection
      = settings.targets_collection.map (remapObj μ) from rfl,
    show (remapSettings μ settings).colliders_collection
      = settings.colliders_collection.map (remapObj μ) from rfl,
    meshObjects_map, meshObjects_map]
  exact all_objects_map_strip μ _ _ n

theorem frame_caches_congr {allObjs allObjsb : String → Obj}
    (h : ∀ n, stripMargin (allObjsb n) = stripMargin (allObjs n)) (fps : ℚ)
    (f : ℤ) (prev : Option (String → V3)) :
    framePos allObjsb f = framePos allObjs f ∧
    frameVel fps allObjsb f prev = frameVel fps allObjs f prev ∧
    frameBvh allObjsb f = frameBvh allObjs f := by
  have hpos : framePos allObjsb f = framePos allObjs f := by
    funext n
    show (allObjsb n).posAt (f : ℚ) = (allObjs n).posAt (f : ℚ)
    have h2 := congrArg Obj.posAt (h n)
    have h3 : (allObjsb n).posAt = (allObjs n).posAt := h2
    rw [h3]
  refine ⟨hpos, ?_, ?_⟩
  · funext n
    unfold frameVel
    rw [hpos]
  · funext n
    show bvh_from_object (allObjsb n) (f : ℚ)
      = bvh_from_object (allObjs n) (f : ℚ)
    unfold bvh_from_object
    have h2 := congrArg Obj.meshAt (h n)
    have h3 : (allObjsb n).meshAt = (allObjs n).meshAt := h2
    rw [h3]

theorem scan_frame_congr {allObjs allObjsb : String → Obj}
    (h : ∀ n, stripMargin (allObjsb n) = stripMargin (allObjs n))
    (vlen : V3 → ℚ) (fps : ℚ) (pairs : List (Obj × Obj))
    (thr : String × String → ℚ) (st : ScanSt) (f : ℤ) :
    scan_frame vlen fps allObjsb pairs thr st f
      = scan_frame vlen fps allObjs pairs thr st f := by
  obtain ⟨hpos, hvel, hbvh⟩ := frame_caches_congr h fps f st.prev_positions
  rw [scan_frame_eq, scan_frame_eq, hpos, hvel, hbvh]

theorem pass1_congr {allObjs allObjsb : String → Obj}
    (h : ∀ n, stripMargin (allObjsb n) = stripMargin (allObjs n))
    (vlen : V3 → ℚ) (fps : ℚ) (pairs : List (Obj × Obj))
    (thr : String × String → ℚ) (frames : List ℤ) :
    pass1 vlen fps allObjsb pairs thr frames
      = pass1 vlen fps allObjs pairs thr frames := by
  unfold pass1
  suffices hgen : ∀ st : ScanSt,
      frames.foldl (scan_frame vlen fps allObjsb pairs thr) st
        = frames.foldl (scan_frame vlen fps allObjs pairs thr) st from
    hgen _
  induction frames with
  | nil => intro st; rfl
  | cons fr frs ih =>
    intro st
    rw [List.foldl_cons, List.foldl_cons,
      scan_frame_congr h vlen fps pairs thr st fr]
    exact ih _

theorem scan_frame_pairs_map (μ : Obj → Option (ℚ → ℚ)) (vlen : V3 → ℚ)
    (fps : ℚ) (allObjs : String → Obj) (pairs : List (Obj × Obj))
    (thr : String × String → ℚ) (st : ScanSt) (f : ℤ) :
    scan_frame vlen fps allObjs
        (pairs.map (Prod.map (remapObj μ) (remapObj μ))) thr st f
      = scan_frame vlen fps allObjs pairs thr st f := by
  rw [scan_frame_eq, scan_frame_eq]
  simp only [List.foldl_map]
  rfl

theorem pass1_pairs_map (μ : Obj → Option (ℚ → ℚ)) (vlen : V3 → ℚ)
    (fps : ℚ) (allObjs : String → Obj) (pairs : List (Obj × Obj))
    (thr : String × String → ℚ) (frames : List ℤ) :
    pass1 vlen fps allObjs (pairs.map (Prod.map (remapObj μ) (remapObj μ)))
        thr frames
      = pass1 vlen fps allObjs pairs thr frames := by
  unfold pass1
  suffices hgen : ∀ st : ScanSt,
      frames.foldl (scan_frame vlen fps allObjs
        (pairs.map (Prod.map (remapObj μ) (remapObj μ))) thr) st
        = frames.foldl (scan_frame vlen fps allObjs pairs thr) st from
    hgen _
  induction frames with
  | nil => intro st; rfl
  | cons fr frs ih =>
    intro st
    rw [List.foldl_cons, List.foldl_cons,
      scan_frame_pairs_map μ vlen fps allObjs pairs thr st fr]
    exact ih _

theorem collision_threshold_remap (μ : Obj → Option (ℚ → ℚ)) (t0 : ℚ)
    (hμ : ∀ o, marginAt t0 (μ o) = marginAt t0 o.rigid_body) (a b : Obj) :
    collision_threshold t0 (remapObj μ a) (remapObj μ b)
      = collision_threshold t0 a b := by
  rw [collision_threshold_eq, collision_threshold_eq]
  show marginAt t0 (μ a) + marginAt t0 (μ b) + COLLISION_EPSILON = _
  rw [hμ a, hμ b]

theorem pair_thresholds_map_remap (μ : Obj → Option (ℚ → ℚ)) (t0 : ℚ)
    (pairs : List (Obj × Obj))
    (hμ : ∀ o, marginAt t0 (μ o) = marginAt t0 o.rigid_body) :
    pair_thresholds_map t0
        (pairs.map (Prod.map (remapObj μ) (remapObj μ)))
      = pair_thresholds_map t0 pairs := by
  funext k
  unfold pair_thresholds_map
  rw [List.reverse_map, List.find?_map]
  rw [show (pairs.reverse.find?
      ((fun p => (p.1.name, p.2.name) == k)
        ∘ Prod.map (remapObj μ) (remapObj μ)))
      = pairs.reverse.find? (fun p => (p.1.name, p.2.name) == k) from rfl]
  cases h : pairs.reverse.find? (fun p => (p.1.name, p.2.name) == k) with
  | none => rfl
  | some pr =>
    show (some (collision_threshold t0 (remapObj μ pr.1)
        (remapObj μ pr.2))).getD 0
      = (some (collision_threshold t0 pr.1 pr.2)).getD 0
    rw [collision_threshold_remap μ t0 hμ]

theorem refine_event_congr {allObjs allObjsb : String → Obj}
    (h : ∀ n, stripMargin (allObjsb n) = stripMargin (allObjs n))
    (vlen : V3 → ℚ) (frame_start : ℤ) (thr : String × String → ℚ)
    (substeps : ℕ) (fps : ℚ) (ev : Event) :
    refine_event vlen frame_start allObjsb thr substeps fps ev
      = refine_event vlen frame_start allObjs thr substeps fps ev := by
  have hname : ∀ n, (allObjsb n).name = (allObjs n).name := by
    intro n
    have h2 := congrArg Obj.name (h n)
    exact h2
  have hpos : ∀ n, (allObjsb n).posAt = (allObjs n).posAt := by
    intro n
    have h2 := congrArg Obj.posAt (h n)
    exact h2
  have hmesh : ∀ n, (allObjsb n).meshAt = (allObjs n).meshAt := by
    intro n
    have h2 := congrArg Obj.meshAt (h n)
    exact h2
  have hbvh : ∀ n : String,
      bvh_from_object (allObjsb n) = bvh_from_object (allObjs n) := by
    intro n
    funext t
    unfold bvh_from_object
    rw [hmesh n]
  have hprobe : ∀ a b : String,
      bisect_probe (allObjsb a) (allObjsb b)
        = bisect_probe (allObjs a) (allObjs b) := by
    intro a b
    funext th t
    unfold bisect_probe
    rw [hbvh a, hbvh b, hpos a, hpos b]
  have hrp : refine_precise frame_start allObjsb thr substeps ev
      = refine_precise frame_start allObjs thr substeps ev := by
    simp only [refine_precise, bisect_onset]
    rw [hname ev.target, hname ev.collider, hprobe ev.target ev.collider]
  simp only [refine_event]
  rw [hrp, hname ev.target, hname ev.collider, hpos ev.target,
    hpos ev.collider, hbvh ev.collider]

theorem refine_events_congr {allObjs allObjsb : String → Obj}
    (h : ∀ n, stripMargin (allObjsb n) = stripMargin (allObjs n))
    (vlen : V3 → ℚ) (frame_start : ℤ) (thr : String × String → ℚ)
    (substeps : ℕ) (fps : ℚ) (evs : List Event) :
    refine_events vlen frame_start allObjsb thr substeps fps evs
      = refine_events vlen frame_start allObjs thr substeps fps evs := by
  unfold refine_events
  rw [show refine_event vlen frame_start allObjsb thr substeps fps
      = refine_event vlen frame_start allObjs thr substeps fps
    from funext (refine_event_congr h vlen frame_start thr substeps fps)]

theorem detect_remap (vlen : V3 → ℚ) (t0 : ℚ) (scene : Scene)
    (settings : CollisionSoundsSettings) (μ : Obj → Option (ℚ → ℚ))
    (hμ : ∀ o, marginAt t0 (μ o) = marginAt t0 o.rigid_body) :
    detect_collisions vlen t0 scene (remapSettings μ settings)
      = detect_collisions vlen t0 scene settings := by
  have hT : scanTargets (remapSettings μ settings)
      = (scanTargets settings).map (remapObj μ) := by
    unfold scanTargets
    rw [show (remapSettings μ settings).targets_collection
        = settings.targets_collection.map (remapObj μ) from rfl]
    exact meshObjects_map μ _
  have hC : scanColliders (remapSettings μ settings)
      = (scanColliders settings).map (remapObj μ) := by
    unfold scanColliders
    rw [show (remapSettings μ settings).colliders_collection
        = settings.colliders_collection.map (remapObj μ) from rfl]
    exact meshObjects_map μ _
  have hpairs : scanPairs (remapSettings μ settings)
      = (scanPairs settings).map (Prod.map (remapObj μ) (remapObj μ)) := by
    unfold scanPairs
    rw [hT, hC]
    exact pairsOf_map μ _ _
  have hthr : scanThr t0 (remapSettings μ settings) = scanThr t0 settings := by
    unfold scanThr
    rw [hpairs]
    exact pair_thresholds_map_remap μ t0 _ hμ
  have hstrip : ∀ n, stripMargin (scanObjs (remapSettings μ settings) n)
      = stripMargin (scanObjs settings n) := scanObjs_remap_strip μ settings
  have hcoarse : coarseEvents vlen t0 scene (remapSettings μ settings)
      = coarseEvents vlen t0 scene settings := by
    unfold coarseEvents
    rw [hthr, hpairs, pass1_pairs_map, pass1_congr hstrip]
  cases hprec : settings.precision_mode with
  | false =>
    have hprecb : (remapSettings μ settings).precision_mode = false := hprec
    rw [detect_nonprecision vlen t0 scene (remapSettings μ settings) hprecb,
      detect_nonprecision vlen t0 scene settings hprec, hcoarse]
  | true =>
    cases hie : (coarseEvents vlen t0 scene settings).isEmpty with
    | true =>
      have hieb : (coarseEvents vlen t0 scene
          (remapSettings μ settings)).isEmpty = true := by
        rw [hcoarse]
        exact hie
      rw [detect_precision_empty vlen t0 scene (remapSettings μ settings)
          hieb,
        detect_precision_empty vlen t0 scene settings hie, hcoarse]
    | false =>
      have hprecb : (remapSettings μ settings).precision_mode = true := hprec
      have hieb : (coarseEvents vlen t0 scene
          (remapSettings μ settings)).isEmpty = false := by
        rw [hcoarse]
        exact hie
      rw [detect_precision vlen t0 scene (remapSettings μ settings) hprecb
          hieb,
        detect_precision vlen t0 scene settings hprec hie]
      rw [hthr, hcoarse,
        show (remapSettings μ settings).substeps = settings.substeps
          from rfl]
      exact refine_events_congr hstrip vlen scene.frame_start
        (scanThr t0 settings) settings.substeps (scanFps scene) _

theorem find_keyOf_unique {pairs : List (Obj × Obj)} {pr : Obj × Obj}
    (hmem : pr ∈ pairs) (hnd : (pairs.map keyOf).Nodup) :
    pairs.find? (fun p => (p.1.name, p.2.name) == keyOf pr) = some pr := by
  induction pairs with
  | nil => cases hmem
  | cons q qs ih =>
    rw [List.map_cons] at hnd
    rcases List.mem_cons.mp hmem with heq | hmem2
    · subst heq
      apply List.find?_cons_of_pos
      show ((pr.1.name, pr.2.name) == keyOf pr) = true
      exact beq_self_eq_true _
    · rw [List.find?_cons_of_neg]
      · exact ih hmem2 (List.nodup_cons.mp hnd).2
      · intro hb
        have hkeq : keyOf q = keyOf pr := eq_of_beq hb
        have hin : keyOf pr ∈ qs.map keyOf :=
          List.mem_map_of_mem keyOf hmem2
        rw [← hkeq] at hin
        exact (List.nodup_cons.mp hnd).1 hin

theorem scanThr_eq_formula (t0 : ℚ) (settings : CollisionSoundsSettings)
    {t c : Obj} (hp : (t, c) ∈ scanPairs settings)
    (hnd : ((scanPairs settings).map keyOf).Nodup) :
    scanThr t0 settings (t.name, c.name)
      = marginAt t0 t.rigid_body + marginAt t0 c.rigid_body
        + COLLISION_EPSILON := by
  unfold scanThr pair_thresholds_map
  have hmemr : (t, c) ∈ (scanPairs settings).reverse :=
    List.mem_reverse.mpr hp
  have hndr : ((scanPairs settings).reverse.map keyOf).Nodup := by
    rw [show (scanPairs settings).reverse.map keyOf
        = ((scanPairs settings).map keyOf).reverse
      from (List.reverse_map keyOf _).symm]
    exact List.nodup_reverse.mpr hnd
  have hfind := find_keyOf_unique hmemr hndr
  rw [show (fun (p : Obj × Obj) => (p.1.name, p.2.name)
        == ((t.name, c.name) : String × String))
      = (fun (p : Obj × Obj) => (p.1.name, p.2.name) == keyOf (t, c))
    from rfl, hfind]
  rfl

/-- C8: for every scanned (target, collider) pair (with the name keys of
the scan's pairs distinct, as for a Python dict without collisions), the
contact threshold equals margin(target) + margin(collider) + epsilon with
`marginAt` falling back to the default constant; and the thresholds are
read from the margins only at the ambient pre-scan time `t0`: remapping
every object's margin function — provided the value at `t0` is kept —
changes nothing in the output of either pass, so the threshold is never
recomputed from possibly-deforming margins mid-scan. -/
theorem claim_C8 (vlen : V3 → ℚ) (t0 : ℚ) (scene : Scene)
    (settings : CollisionSoundsSettings) (μ : Obj → Option (ℚ → ℚ))
    (hμ : ∀ o, marginAt t0 (μ o) = marginAt t0 o.rigid_body)
    (t c : Obj) (hp : (t, c) ∈ scanPairs settings)
    (hnd : ((scanPairs settings).map keyOf).Nodup) :
    scanThr t0 settings (t.name, c.name)
      = marginAt t0 t.rigid_body + marginAt t0 c.rigid_body
        + COLLISION_EPSILON ∧
    detect_collisions vlen t0 scene (remapSettings μ settings)
      = detect_collisions vlen t0 scene settings :=
  ⟨scanThr_eq_formula t0 settings hp hnd,
   detect_remap vlen t0 scene settings μ hμ⟩

/-- A margin remap that keeps the value at time 0 and is wild elsewhere. -/
def μW : Obj → Option (ℚ → ℚ) :=
  fun o => some (fun t => if t = 0 then marginAt 0 o.rigid_body else 99)

/-- Witness for C8 at the basic scene with a concrete margin remap. -/
theorem claim_C8_witness :
    (∀ o : Obj, marginAt 0 (μW o) = marginAt 0 o.rigid_body) ∧
    (objT, objC) ∈ scanPairs settingsW ∧
    ((scanPairs settingsW).map keyOf).Nodup ∧
    (scanThr 0 settingsW (objT.name, objC.name)
        = marginAt 0 objT.rigid_body + marginAt 0 objC.rigid_body
          + COLLISION_EPSILON ∧
     detect_collisions vlen0 0 sceneW (remapSettings μW settingsW)
        = detect_collisions vlen0 0 sceneW settingsW) := by
  have hμ : ∀ o : Obj, marginAt 0 (μW o) = marginAt 0 o.rigid_body := by
    intro o
    show (if (0 : ℚ) = 0 then marginAt 0 o.rigid_body else 99) = _
    rw [if_pos rfl]
  have hps : scanPairs settingsW = [(objT, objC)] := rfl
  have hp : (objT, objC) ∈ scanPairs settingsW := by
    rw [hps]
    exact List.mem_singleton.mpr rfl
  have hnd : ((scanPairs settingsW).map keyOf).Nodup := by
    rw [hps]
    simp
  exact ⟨hμ, hp, hnd,
    claim_C8 vlen0 0 sceneW settingsW μW hμ objT objC hp hnd⟩

/-!  Claim C9: the coarse pass samples forward one frame at a time; the
refiner's non-monotonic samples come only after it. -/

theorem pass1_trace_eq_map (frames : List ℤ) :
    pass1_trace frames = frames.map (fun f : ℤ => (f : ℚ)) := by
  unfold pass1_trace
  suffices h : ∀ (fs : List ℤ) (acc : List ℚ),
      fs.foldl (fun (acc : List ℚ) (f : ℤ) => acc ++ [(f : ℚ)]) acc
        = acc ++ fs.map (fun f : ℤ => (f : ℚ)) by
    simpa using h frames []
  intro fs
  induction fs with
  | nil => intro acc; simp
  | cons f fs ih =>
    intro acc
    rw [List.foldl_cons, ih]
    simp

theorem frameRange_chain (s e : ℤ) :
    (frameRange s e).Chain' (fun a b => b = a + 1) := by
  unfold frameRange
  rw [List.chain'_map]
  apply List.chain'_iff_get.mpr
  intro i hi
  simp only [List.get_eq_getElem, List.getElem_range]
  push_cast
  ring

theorem frameRange_sorted (s e : ℤ) :
    (frameRange s e).Pairwise (fun a b => a < b) := by
  have hc := (frameRange_chain s e).imp
    (fun {a b} (hab : b = a + 1) => by omega : ∀ {a b : ℤ}, b = a + 1 → a < b)
  exact List.chain'_iff_pairwise.mp hc

/-- C9: the full sampling trace opens with the coarse pass's samples —
each integer frame of the configured range exactly once, consecutive and
strictly increasing, with no revisits or jumps — and only after that
complete prefix do the refiner's (non-monotonic) samples appear, and only
in precision mode on a non-empty coarse result; without precision mode
the trace is the coarse prefix alone. -/
theorem claim_C9 (vlen : V3 → ℚ) (t0 : ℚ) (scene : Scene)
    (settings : CollisionSoundsSettings) :
    (detect_trace vlen t0 scene settings
      = pass1_trace (frameRange scene.frame_start scene.frame_end)
        ++ (if settings.precision_mode
              && !(coarseEvents vlen t0 scene settings).isEmpty
            then refine_trace scene.frame_start (scanObjs settings)
              (scanThr t0 settings)
              (if settings.precision_mode then settings.substeps else 1)
              (coarseEvents vlen t0 scene settings)
            else [])) ∧
    pass1_trace (frameRange scene.frame_start scene.frame_end)
      = (frameRange scene.frame_start scene.frame_end).map
          (fun f : ℤ => (f : ℚ)) ∧
    (frameRange scene.frame_start scene.frame_end).Chain'
      (fun a b => b = a + 1) ∧
    (frameRange scene.frame_start scene.frame_end).Pairwise
      (fun a b => a < b) ∧
    (∀ f : ℤ, f ∈ frameRange scene.frame_start scene.frame_end
        ↔ scene.frame_start ≤ f ∧ f ≤ scene.frame_end) ∧
    (settings.precision_mode = false →
      detect_trace vlen t0 scene settings
        = pass1_trace (frameRange scene.frame_start scene.frame_end)) := by
  have h1 : detect_trace vlen t0 scene settings
      = pass1_trace (frameRange scene.frame_start scene.frame_end)
        ++ (if settings.precision_mode
              && !(coarseEvents vlen t0 scene settings).isEmpty
            then refine_trace scene.frame_start (scanObjs settings)
              (scanThr t0 settings)
              (if settings.precision_mode then settings.substeps else 1)
              (coarseEvents vlen t0 scene settings)
            else []) := rfl
  refine ⟨h1, pass1_trace_eq_map _, frameRange_chain _ _,
    frameRange_sorted _ _, fun f => mem_frameRange, ?_⟩
  intro hprec
  rw [h1, hprec]
  simp

/-- Witness for C9: the basic scene runs without precision mode, so its
trace is exactly the coarse forward scan. -/
theorem claim_C9_witness :
    settingsW.precision_mode = false ∧
    detect_trace vlen0 0 sceneW settingsW
      = pass1_trace (frameRange sceneW.frame_start sceneW.frame_end) :=
  ⟨rfl, (claim_C9 vlen0 0 sceneW settingsW).2.2.2.2.2 rfl⟩

/-!  Claim C10: refinement is a one-to-one, order- and name-preserving
map over the coarse events. -/

/-- C10: the refinement pass returns exactly one refined event per
coarse event, at the same list position, and — whenever the event's
names round-trip through the object dictionary, as they do for every
scanned event — with the same target and collider names; it never adds,
drops or re-pairs events. -/
theorem claim_C10 (vlen : V3 → ℚ) (frame_start : ℤ)
    (allObjs : String → Obj) (thr : String × String → ℚ) (substeps : ℕ)
    (fps : ℚ) (events : List Event)
    (hrt : ∀ ev ∈ events, (allObjs ev.target).name = ev.target ∧
        (allObjs ev.collider).name = ev.collider) :
    (refine_events vlen frame_start allObjs thr substeps fps events).length
        = events.length ∧
    ∀ (i : ℕ) (ev : Event), events.get? i = some ev →
      (refine_events vlen frame_start allObjs thr substeps fps
          events).get? i
        = some (refine_event vlen frame_start allObjs thr substeps fps ev)
        ∧
      (refine_event vlen frame_start allObjs thr substeps fps ev).target
        = ev.target ∧
      (refine_event vlen frame_start allObjs thr substeps fps ev).collider
        = ev.collider := by
  refine ⟨List.length_map _ _, ?_⟩
  intro i ev hi
  have hmem : ev ∈ events := List.get?_mem hi
  obtain ⟨hT, hC⟩ := hrt ev hmem
  obtain ⟨ht, hc, -, -, -⟩ := refine_event_fields vlen frame_start allObjs
    thr substeps fps ev
  refine ⟨?_, ?_, ?_⟩
  · unfold refine_events
    rw [List.get?_map, hi]
    rfl
  · rw [ht, hT]
  · rw [hc, hC]

/-- Witness for C10 on a concrete one-event list whose names round-trip
through the basic scene's object dictionary. -/
theorem claim_C10_witness :
    (∀ ev ∈ [ev7], ((scanObjs settingsP) ev.target).name = ev.target ∧
        ((scanObjs settingsP) ev.collider).name = ev.collider) ∧
    (refine_events vlen0 0 (scanObjs settingsP) (scanThr 0 settingsP) 2 1
        [ev7]).length = ([ev7] : List Event).length ∧
    ∀ (i : ℕ) (ev : Event), ([ev7] : List Event).get? i = some ev →
      (refine_events vlen0 0 (scanObjs settingsP) (scanThr 0 settingsP) 2 1
          [ev7]).get? i
        = some (refine_event vlen0 0 (scanObjs settingsP)
            (scanThr 0 settingsP) 2 1 ev) ∧
      (refine_event vlen0 0 (scanObjs settingsP) (scanThr 0 settingsP) 2 1
          ev).target = ev.target ∧
      (refine_event vlen0 0 (scanObjs settingsP) (scanThr 0 settingsP) 2 1
          ev).collider = ev.collider := by
  have hrt : ∀ ev ∈ [ev7], ((scanObjs settingsP) ev.target).name = ev.target
      ∧ ((scanObjs settingsP) ev.collider).name = ev.collider := by
    intro ev hev
    rw [List.mem_singleton] at hev
    subst hev
    exact ⟨rfl, rfl⟩
  obtain ⟨h1, h2⟩ := claim_C10 vlen0 0 (scanObjs settingsP)
    (scanThr 0 settingsP) 2 1 [ev7] hrt
  exact ⟨hrt, h1, h2⟩

end CollisionSounds
